import Mathlib

/-!
# Chess with portals: move validation, game-state detection and portal cooldowns

A shallow embedding of `MoveValidator.cpp`, `PortalSystem.cpp` and `GameManager.cpp`.

* Coordinates and the board size are C++ `int`s.  Every coordinate the code computes is a
  board coordinate plus or minus at most two board sizes, so no `int` overflows and the
  integers are modelled by `Int`.
* The board class `ChessBoard` and the record types `Position`, `Square`, `Move` and
  `PortalConfig` are declared in headers that are not among the sources.  The records are
  modelled from the fields the three files use, the board from its uses and from the
  description of the board capability (size, bounds test, square lookup, `placePiece`).
* Loops with an early `return` over a scan order become `List.any` / `List.find?` over the
  same order.  Console output is not modelled.
* The `while` loop of `bfsValidateMove` carries a bound on the number of positions taken
  from the queue and returns `none` when the bound is used up; `bfsValidateMove` runs it
  with the bound `size * size + 1`, which is shown to suffice.
* The lists `...Reads` give, function by function, the positions passed to
  `board.getSquare`, so that statements about board accesses can be made.
* `std::map` `cooldowns_` is a partial function from ids to counters; `std::queue`
  `cooldown_queue_` is a list with the front first; `std::stack` `move_history` is a list
  with the top first.
-/

namespace ChessPortals

/-! ## Data model -/

/-- A board coordinate pair: `x` is the file, `y` the rank. -/
structure Position where
  x : Int
  y : Int
deriving DecidableEq, Repr

/-- The content of a square: a piece name (empty for an empty square) and a colour flag. -/
structure Square where
  piece : String
  is_white : Bool
deriving DecidableEq, Repr

/-- Modelled from the spec: `Square::is_empty` is declared in the missing header
`ChessBoard.hpp`; emptiness is derived from the piece identifier being absent. -/
def Square.is_empty (s : Square) : Bool := decide (s.piece = "")

/-- Modelled from the spec: the class `ChessBoard` (missing `ChessBoard.hpp`/`.cpp`):
bounded 2D square storage with a size.  `squares` is total; what a lookup outside the
bounds returns is not fixed by the description, so it is left to the board value. -/
structure ChessBoard where
  size : Int
  squares : Position → Square

/-- Modelled from the spec: `ChessBoard::getBoardSize` (missing source). -/
def ChessBoard.getBoardSize (b : ChessBoard) : Int := b.size

/-- Modelled from the spec: `ChessBoard::isInBounds` (missing source); the valid range
is `[0, boardSize)` on both axes. -/
def ChessBoard.isInBounds (b : ChessBoard) (p : Position) : Bool :=
  decide (0 ≤ p.x) && decide (p.x < b.size) && decide (0 ≤ p.y) && decide (p.y < b.size)

/-- Modelled from the spec: `ChessBoard::getSquare` (missing source), a read-only view
of the square at a position. -/
def ChessBoard.getSquare (b : ChessBoard) (p : Position) : Square := b.squares p

/-- Modelled from the spec: `ChessBoard::placePiece(kind, color, x, y)` (missing source);
it overwrites the square, and an empty kind clears it.  Only squares of the grid are
stored. -/
def ChessBoard.placePiece (b : ChessBoard) (piece : String) (is_white : Bool) (x y : Int) :
    ChessBoard :=
  if b.isInBounds ⟨x, y⟩ then
    { b with squares := fun q => if q = ⟨x, y⟩ then ⟨piece, is_white⟩ else b.squares q }
  else b

/-! ## MoveValidator -/

/-- The function `MoveValidator::toLowerCase`: `std::tolower` on every character. -/
def toLowerCase (str : String) : String := ⟨str.data.map Char.toLower⟩

/-- One ray of the sliding pieces: the loop `for (i = 1; i < size; ++i)` of
`getMoveEdges`, with `n` iterations left and the loop counter at `i`. -/
def castRay (board : ChessBoard) (pos : Position) (dx dy : Int) : Nat → Int → List Position
  | 0, _ => []
  | n + 1, i =>
    let p : Position := ⟨pos.x + i * dx, pos.y + i * dy⟩
    if !board.isInBounds p then []
    else if !(board.getSquare p).is_empty then [p]
    else p :: castRay board pos dx dy n (i + 1)

/-- The loop over `directions` shared by bishop, rook and queen in `getMoveEdges`. -/
def slideEdges (board : ChessBoard) (pos : Position) (directions : List (Int × Int)) :
    List Position :=
  directions.flatMap fun dir => castRay board pos dir.1 dir.2 (board.getBoardSize - 1).toNat 1

/-- The loop over fixed offsets shared by knight and king in `getMoveEdges`. -/
def stepEdges (board : ChessBoard) (pos : Position) (is_white : Bool)
    (moves : List (Int × Int)) : List Position :=
  moves.flatMap fun move =>
    let p : Position := ⟨pos.x + move.1, pos.y + move.2⟩
    if board.isInBounds p then
      if (board.getSquare p).is_empty || (board.getSquare p).is_white != is_white then [p]
      else []
    else []

def bishopDirections : List (Int × Int) := [(1, 1), (1, -1), (-1, 1), (-1, -1)]

def rookDirections : List (Int × Int) := [(0, 1), (0, -1), (1, 0), (-1, 0)]

def queenDirections : List (Int × Int) :=
  [(0, 1), (0, -1), (1, 0), (-1, 0), (1, 1), (1, -1), (-1, 1), (-1, -1)]

def knightMoves : List (Int × Int) :=
  [(2, 1), (2, -1), (-2, 1), (-2, -1), (1, 2), (1, -2), (-1, 2), (-1, -2)]

/-- The pawn branch of `getMoveEdges`. -/
def pawnEdges (board : ChessBoard) (pos : Position) (is_white : Bool) : List Position :=
  let forward : Int := if is_white then 1 else -1
  let forward_one : Position := ⟨pos.x, pos.y + forward⟩
  let advances : List Position :=
    if board.isInBounds forward_one && (board.getSquare forward_one).is_empty then
      forward_one ::
        (if (is_white && decide (pos.y = 1)) || (!is_white && decide (pos.y = 6)) then
          let forward_two : Position := ⟨pos.x, pos.y + 2 * forward⟩
          if board.isInBounds forward_two && (board.getSquare forward_two).is_empty &&
              (board.getSquare forward_one).is_empty then [forward_two] else []
        else [])
    else []
  let captures : List Position := [⟨pos.x - 1, pos.y + forward⟩, ⟨pos.x + 1, pos.y + forward⟩]
  advances ++ captures.flatMap fun capture =>
    if board.isInBounds capture then
      if !(board.getSquare capture).is_empty && (board.getSquare capture).is_white != is_white
      then [capture] else []
    else []

/-- The function `MoveValidator::getMoveEdges`. -/
def getMoveEdges (piece_lower : String) (pos : Position) (is_white : Bool)
    (board : ChessBoard) : List Position :=
  let piece_type := toLowerCase piece_lower
  if piece_type = "pawn" then pawnEdges board pos is_white
  else if piece_type = "knight" then stepEdges board pos is_white knightMoves
  else if piece_type = "bishop" then slideEdges board pos bishopDirections
  else if piece_type = "rook" then slideEdges board pos rookDirections
  else if piece_type = "queen" then slideEdges board pos queenDirections
  else if piece_type = "king" then stepEdges board pos is_white queenDirections
  else []

/-- The loop `for (x = start.x + step; x != rook_x; x += step)` of `validateCastling`:
true when every visited square is empty.  `n` bounds the number of iterations. -/
def castlingPathClear (board : ChessBoard) (y rook_x step : Int) : Nat → Int → Bool
  | 0, _ => true
  | n + 1, x =>
    if x = rook_x then true
    else if !(board.getSquare ⟨x, y⟩).is_empty then false
    else castlingPathClear board y rook_x step n (x + step)

/-- The function `MoveValidator::validateCastling`. -/
def validateCastling (start end_ : Position) (is_white : Bool) (board : ChessBoard) : Bool :=
  if start.x ≠ 4 ∨ start.y ≠ (if is_white then 0 else 7) then false
  else
    let is_kingside := decide (end_.x > start.x)
    let rook_x : Int := if is_kingside then 7 else 0
    let rook_square := board.getSquare ⟨rook_x, start.y⟩
    if rook_square.is_empty || toLowerCase rook_square.piece != "rook" ||
        rook_square.is_white != is_white then false
    else
      let step : Int := if is_kingside then 1 else -1
      castlingPathClear board start.y rook_x step 8 (start.x + step)

/-- The function `MoveValidator::isEnPassantMove`. -/
def isEnPassantMove (start end_ : Position) (is_white : Bool) (board : ChessBoard) : Bool :=
  if (is_white && decide (start.y ≠ 4)) || (!is_white && decide (start.y ≠ 3)) then false
  else if (end_.x - start.x).natAbs ≠ 1 ∨ end_.y ≠ (if is_white then 5 else 2) then false
  else if !(board.getSquare end_).is_empty then false
  else
    let captured_square := board.getSquare ⟨end_.x, start.y⟩
    if captured_square.is_empty || toLowerCase captured_square.piece != "pawn" ||
        captured_square.is_white == is_white then false
    else true

/-- The two `placePiece` calls by which both `PortalSystem::handlePortalMove` and the
innermost loop of `GameManager::isCheckmate` move the occupant of `start` to `end_` and
clear `start`. -/
def relocatePiece (board : ChessBoard) (start end_ : Position) : ChessBoard :=
  let square := board.getSquare start
  let board1 := board.placePiece square.piece square.is_white end_.x end_.y
  board1.placePiece "" false start.x start.y

/-! ## PortalSystem -/

/-- The pair `portal.positions` (type declared in the missing header). -/
structure PortalPositions where
  entry : Position
  exit : Position
deriving DecidableEq, Repr

/-- The record `portal.properties` (type declared in the missing header). -/
structure PortalProperties where
  allowed_colors : List String
  cooldown : Int
deriving DecidableEq, Repr

/-- The record `PortalConfig` (type declared in the missing header). -/
structure PortalConfig where
  id : String
  positions : PortalPositions
  properties : PortalProperties
deriving DecidableEq, Repr

/-- The state of a `PortalSystem`: the configured portals, the map `cooldowns_`
from portal id to counter, and the FIFO `cooldown_queue_` (front of the queue first). -/
structure PortalSystem where
  portals_ : List PortalConfig
  cooldowns_ : String → Option Int
  cooldown_queue_ : List String

/-- The test `start == portal.entry && end == portal.exit` used by every loop over
`portals_`. -/
def PortalConfig.matchesMove (portal : PortalConfig) (start end_ : Position) : Bool :=
  decide (start.x = portal.positions.entry.x) && decide (start.y = portal.positions.entry.y) &&
  decide (end_.x = portal.positions.exit.x) && decide (end_.y = portal.positions.exit.y)

/-- The constructor `PortalSystem::PortalSystem`: every configured id gets counter 0. -/
def PortalSystem.construct (portals : List PortalConfig) : PortalSystem :=
  { portals_ := portals
    cooldowns_ := fun id => if portals.any (fun portal => portal.id = id) then some 0 else none
    cooldown_queue_ := [] }

/-- The function `PortalSystem::isPortalMove`. -/
def PortalSystem.isPortalMove (ps : PortalSystem) (start end_ : Position) : Bool :=
  ps.portals_.any fun portal => portal.matchesMove start end_

/-- The function `PortalSystem::isPortalInCooldown`: the first matching portal decides. -/
def PortalSystem.isPortalInCooldown (ps : PortalSystem) (start end_ : Position) : Bool :=
  match ps.portals_.find? (fun portal => portal.matchesMove start end_) with
  | some portal =>
    match ps.cooldowns_ portal.id with
    | some c => decide (c > 0)
    | none => false
  | none => false

/-- The function `PortalSystem::validatePortalMove`. -/
def PortalSystem.validatePortalMove (ps : PortalSystem) (piece : String) (start end_ : Position)
    (is_white_turn : Bool) (board : ChessBoard) : Bool :=
  let square := board.getSquare start
  if square.is_empty || square.piece != piece || square.is_white != is_white_turn then false
  else
    match ps.portals_.find? (fun portal => portal.matchesMove start end_) with
    | some portal =>
      if ps.isPortalInCooldown start end_ then false
      else
        let color := if is_white_turn then "white" else "black"
        if portal.properties.allowed_colors.contains color then true else false
    | none => false

/-- The function `PortalSystem::handlePortalMove`: the first matching portal is used; the
piece is relocated and the cooldown armed only when the entry square is occupied. -/
def PortalSystem.handlePortalMove (ps : PortalSystem) (start end_ : Position)
    (board : ChessBoard) : PortalSystem × ChessBoard :=
  match ps.portals_.find? (fun portal => portal.matchesMove start end_) with
  | some portal =>
    let square := board.getSquare start
    if !square.is_empty then
      ({ ps with
          cooldowns_ := fun id =>
            if id = portal.id then some portal.properties.cooldown else ps.cooldowns_ id
          cooldown_queue_ :=
            ps.cooldown_queue_ ++ List.replicate portal.properties.cooldown.toNat portal.id },
        relocatePiece board start end_)
    else (ps, board)
  | none => (ps, board)

/-- The function `PortalSystem::updateCooldowns` (status printing omitted). -/
def PortalSystem.updateCooldowns (ps : PortalSystem) : PortalSystem :=
  match ps.cooldown_queue_ with
  | [] => ps
  | portal_id :: rest =>
    match ps.cooldowns_ portal_id with
    | some c =>
      if c > 0 then
        { ps with
            cooldowns_ := fun id => if id = portal_id then some (c - 1) else ps.cooldowns_ id
            cooldown_queue_ := rest }
      else { ps with cooldown_queue_ := rest }
    | none => { ps with cooldown_queue_ := rest }

/-! ## MoveValidator::isValidMove -/

/-- The function `MoveValidator::isValidMove`. -/
def isValidMove (piece : String) (start end_ : Position) (is_white : Bool)
    (board : ChessBoard) (portal_system : PortalSystem) : Bool :=
  if !board.isInBounds start then false
  else
    let start_square := board.getSquare start
    if start_square.is_empty || toLowerCase start_square.piece != toLowerCase piece ||
        start_square.is_white != is_white then false
    else if !board.isInBounds end_ then false
    else
      let end_square := board.getSquare end_
      if !end_square.is_empty && end_square.is_white == is_white then false
      else
        let piece_lower := toLowerCase piece
        if piece_lower = "king" ∧ (end_.x - start.x).natAbs = 2 ∧ end_.y = start.y then
          validateCastling start end_ is_white board
        else if piece_lower = "pawn" ∧ isEnPassantMove start end_ is_white board = true then
          true
        else if piece_lower = "pawn" ∧
            ((is_white = true ∧ end_.y = 7) ∨ (is_white = false ∧ end_.y = 0)) then
          (getMoveEdges piece_lower start is_white board).any
            fun move => decide (move.x = end_.x) && decide (move.y = end_.y)
        else if portal_system.isPortalMove start end_ then
          portal_system.validatePortalMove piece start end_ is_white board
        else
          (getMoveEdges piece_lower start is_white board).any
            fun move => decide (move.x = end_.x) && decide (move.y = end_.y)

/-! ## MoveValidator::bfsValidateMove -/

/-- The loop `for (const auto& next : edges)` of `bfsValidateMove`, acting on the queue (front
first) and the visited set: a square is enqueued and marked when it is on the board, not yet
visited, and empty or equal to `end_`. -/
def bfsPushEdges (board : ChessBoard) (end_ : Position) :
    List Position → List Position × List Position → List Position × List Position
  | [], state => state
  | next :: edges, (queue, visited) =>
    if !board.isInBounds next then bfsPushEdges board end_ edges (queue, visited)
    else if visited.contains next then bfsPushEdges board end_ edges (queue, visited)
    else if !(board.getSquare next).is_empty &&
        (decide (next.x ≠ end_.x) || decide (next.y ≠ end_.y)) then
      bfsPushEdges board end_ edges (queue, visited)
    else bfsPushEdges board end_ edges (queue ++ [next], next :: visited)

/-- The block "Portal bağlantıları" of `bfsValidateMove`: for the literal kind "teleporter",
when `(current, end_)` is a configured portal, `end_` is enqueued and marked unless already
visited. -/
def bfsPushPortal (piece_lower : String) (current end_ : Position) (board : ChessBoard)
    (portal_system : PortalSystem) (state : List Position × List Position) :
    List Position × List Position :=
  if piece_lower = "teleporter" ∧ portal_system.isPortalMove current end_ = true then
    if board.isInBounds end_ then
      if !state.2.contains end_ then (state.1 ++ [end_], end_ :: state.2) else state
    else state
  else state

/-- The loop `while (!queue.empty())` of `bfsValidateMove`.  `fuel` bounds the number of
positions taken from the queue; `none` stands for a search not finished within the bound. -/
def bfsLoop (piece_lower : String) (end_ : Position) (is_white : Bool) (board : ChessBoard)
    (portal_system : PortalSystem) : Nat → List Position → List Position → Option Bool
  | 0, _, _ => none
  | _ + 1, [], _ => some false
  | fuel + 1, current :: queue, visited =>
    if current.x = end_.x ∧ current.y = end_.y then some true
    else
      let edges := getMoveEdges piece_lower current is_white board
      let afterPortal :=
        bfsPushPortal piece_lower current end_ board portal_system (queue, visited)
      let afterEdges := bfsPushEdges board end_ edges afterPortal
      bfsLoop piece_lower end_ is_white board portal_system fuel afterEdges.1 afterEdges.2

/-- The function `MoveValidator::bfsValidateMove`.  Only squares of the board are enqueued,
each at most once, so the loop is run with room for `size * size` positions and the final look
at the empty queue. -/
def bfsValidateMove (piece_lower : String) (start end_ : Position) (is_white : Bool)
    (board : ChessBoard) (portal_system : PortalSystem) : Option Bool :=
  if !board.isInBounds start || !board.isInBounds end_ then some false
  else if !(board.getSquare end_).is_empty && ((board.getSquare end_).is_white == is_white) then
    some false
  else
    bfsLoop piece_lower end_ is_white board portal_system
      (board.getBoardSize.toNat * board.getBoardSize.toNat + 1) [start] [start]

/-! ## GameManager -/

/-- The record `Move` kept in the history (type declared in the missing header). -/
structure Move where
  start : Position
  end_ : Position
  moved_piece : String
  moved_piece_color : Bool
  captured_piece : String
  captured_piece_color : Bool
deriving DecidableEq, Repr

/-- The scan order `for y in [0, size) for x in [0, size)` of the `GameManager` loops. -/
def scanPositions (board : ChessBoard) : List Position :=
  (List.range board.getBoardSize.toNat).flatMap fun (y : Nat) =>
    (List.range board.getBoardSize.toNat).map fun (x : Nat) => (⟨(x : Int), (y : Int)⟩ : Position)

/-- The first loop of `GameManager::isInCheck`: the first king of the colour in scan order. -/
def findKing (board : ChessBoard) (is_white_turn : Bool) : Option Position :=
  (scanPositions board).find? fun p =>
    decide (toLowerCase (board.getSquare p).piece = "king") &&
      ((board.getSquare p).is_white == is_white_turn)

def threatening_pieces : List String := ["queen", "rook", "bishop", "knight", "pawn"]

/-- The function `GameManager::isInCheck`. -/
def isInCheck (chess_board : ChessBoard) (portal_system : PortalSystem)
    (is_white_turn : Bool) : Bool :=
  match findKing chess_board is_white_turn with
  | none => false
  | some king_position =>
    (scanPositions chess_board).any fun start =>
      let square := chess_board.getSquare start
      !square.is_empty && (square.is_white != is_white_turn) &&
        threatening_pieces.contains (toLowerCase square.piece) &&
        isValidMove square.piece start king_position (!is_white_turn) chess_board portal_system

/-- The function `GameManager::isCheckmate`. -/
def isCheckmate (chess_board : ChessBoard) (portal_system : PortalSystem)
    (is_white_turn : Bool) : Bool :=
  if !isInCheck chess_board portal_system is_white_turn then false
  else
    !(scanPositions chess_board).any fun start =>
      let square := chess_board.getSquare start
      !square.is_empty && (square.is_white == is_white_turn) &&
        (scanPositions chess_board).any fun end_ =>
          !(decide (start.x = end_.x) && decide (start.y = end_.y)) &&
            isValidMove square.piece start end_ is_white_turn chess_board portal_system &&
            !isInCheck (relocatePiece chess_board start end_) portal_system is_white_turn

/-- The offsets `-size, ..., size` of the two inner loops of `GameManager::isStalemate`. -/
def scanOffsets (board : ChessBoard) : List Int :=
  (List.range (2 * board.getBoardSize + 1).toNat).map fun (i : Nat) =>
    (i : Int) - board.getBoardSize

/-- The function `GameManager::isStalemate`. -/
def isStalemate (chess_board : ChessBoard) (portal_system : PortalSystem)
    (is_white_turn : Bool) : Bool :=
  if isInCheck chess_board portal_system is_white_turn then false
  else
    !(scanPositions chess_board).any fun start =>
      let square := chess_board.getSquare start
      !square.is_empty && (square.is_white == is_white_turn) &&
        (scanOffsets chess_board).any fun dy =>
          (scanOffsets chess_board).any fun dx =>
            !(decide (dx = 0) && decide (dy = 0)) &&
              chess_board.isInBounds ⟨start.x + dx, start.y + dy⟩ &&
              isValidMove square.piece start ⟨start.x + dx, start.y + dy⟩ is_white_turn
                chess_board portal_system

/-- The mutable state a `GameManager` works on: the board and portal system it holds by
reference and its own `move_history` stack (top of the stack first). -/
structure GameState where
  chess_board : ChessBoard
  portal_system : PortalSystem
  move_history : List Move

/-- The function `GameManager::addToMoveHistory`. -/
def addToMoveHistory (g : GameState) (move : Move) : GameState :=
  { g with move_history := move :: g.move_history }

/-- The function `GameManager::undoMove` (the modelled `placePiece` never throws, so the
`catch` branch is not reachable). -/
def undoMove (g : GameState) : GameState :=
  match g.move_history with
  | [] => g
  | last_move :: rest =>
    let board1 := g.chess_board.placePiece last_move.moved_piece last_move.moved_piece_color
      last_move.start.x last_move.start.y
    let board2 :=
      if last_move.captured_piece ≠ "" then
        board1.placePiece last_move.captured_piece last_move.captured_piece_color
          last_move.end_.x last_move.end_.y
      else board1.placePiece "" false last_move.end_.x last_move.end_.y
    { chess_board := board2
      portal_system := g.portal_system.updateCooldowns
      move_history := rest }

/-! ## Test positions -/

def emptySquare : Square := ⟨"", false⟩

/-- An 8x8 board holding the listed pieces and nothing else. -/
def boardOf (pieces : List (Position × Square)) : ChessBoard :=
  { size := 8
    squares := fun p => match pieces.find? (fun e => e.1 = p) with
      | some e => e.2
      | none => emptySquare }

def noPortals : PortalSystem := PortalSystem.construct []

/-- White king at (0,0), black queen at (0,3), black rook at (1,7). -/
def mateBoard : ChessBoard :=
  boardOf [(⟨0, 0⟩, ⟨"king", true⟩), (⟨0, 3⟩, ⟨"queen", false⟩), (⟨1, 7⟩, ⟨"rook", false⟩)]

/-- The position `mateBoard` with an additional white bishop at (2,3). -/
def blockBoard : ChessBoard :=
  boardOf [(⟨0, 0⟩, ⟨"king", true⟩), (⟨0, 3⟩, ⟨"queen", false⟩), (⟨1, 7⟩, ⟨"rook", false⟩),
    (⟨2, 3⟩, ⟨"bishop", true⟩)]

/-- White king at (0,0), black queen at (1,2). -/
def staleBoard : ChessBoard :=
  boardOf [(⟨0, 0⟩, ⟨"king", true⟩), (⟨1, 2⟩, ⟨"queen", false⟩)]

/-- White king at (0,0), black rook at (1,1): the rook does not attack the king. -/
def offRayBoard : ChessBoard :=
  boardOf [(⟨0, 0⟩, ⟨"king", true⟩), (⟨1, 1⟩, ⟨"rook", false⟩)]

/-- White king at (0,0), black rook at (0,3): the rook attacks the king along the file. -/
def onRayBoard : ChessBoard :=
  boardOf [(⟨0, 0⟩, ⟨"king", true⟩), (⟨0, 3⟩, ⟨"rook", false⟩)]

/-- A single portal with the given entry, exit, allowed colours and cooldown length. -/
def singlePortal (entry exit : Position) (colors : List String) (cooldown : Int) :
    PortalSystem :=
  PortalSystem.construct [⟨"p1", ⟨entry, exit⟩, ⟨colors, cooldown⟩⟩]

/-- Portal "A" from (0,0) to (1,1) with cooldown 2 and portal "B" from (2,2) to (3,3) with
cooldown 1, both open to both colours. -/
def twoPortals : PortalSystem :=
  PortalSystem.construct
    [⟨"A", ⟨⟨0, 0⟩, ⟨1, 1⟩⟩, ⟨["white", "black"], 2⟩⟩,
     ⟨"B", ⟨⟨2, 2⟩, ⟨3, 3⟩⟩, ⟨["white", "black"], 1⟩⟩]

/-- White pawns on (0,0) and (2,2), the entries of the portals of `twoPortals`. -/
def twoPawnsBoard : ChessBoard :=
  boardOf [(⟨0, 0⟩, ⟨"pawn", true⟩), (⟨2, 2⟩, ⟨"pawn", true⟩)]

/-- The state after portal "A" of `twoPortals` has been used on `twoPawnsBoard`. -/
def afterPortalA : PortalSystem × ChessBoard :=
  twoPortals.handlePortalMove ⟨0, 0⟩ ⟨1, 1⟩ twoPawnsBoard

/-- The state after portal "B" has then been used as well. -/
def afterPortalB : PortalSystem × ChessBoard :=
  afterPortalA.1.handlePortalMove ⟨2, 2⟩ ⟨3, 3⟩ afterPortalA.2

/-- A white rook, stored with a capital letter, on (0,0). -/
def capitalRookBoard : ChessBoard := boardOf [(⟨0, 0⟩, ⟨"Rook", true⟩)]

/-- A white rook on (0,0). -/
def rookBoard : ChessBoard := boardOf [(⟨0, 0⟩, ⟨"rook", true⟩)]

/-- A white king on its home square (4,0) and nothing else. -/
def loneKingBoard : ChessBoard := boardOf [(⟨4, 0⟩, ⟨"king", true⟩)]

/-- A white pawn on (3,4) next to a black pawn on (4,4). -/
def enPassantBoard : ChessBoard :=
  boardOf [(⟨3, 4⟩, ⟨"pawn", true⟩), (⟨4, 4⟩, ⟨"pawn", false⟩)]

/-! ## Specification-level notions -/

/-- The square reached after `i` steps in direction `(dx, dy)`. -/
def rayStep (pos : Position) (dx dy i : Int) : Position := ⟨pos.x + i * dx, pos.y + i * dy⟩

/-- The square `end_` is on an orthogonal ray from `start`. -/
def onOrthogonalRay (start end_ : Position) : Prop :=
  (end_.x = start.x ∧ end_.y ≠ start.y) ∨ (end_.y = start.y ∧ end_.x ≠ start.x)

/-- The square `end_` is on a diagonal ray from `start`. -/
def onDiagonalRay (start end_ : Position) : Prop :=
  (end_.x - start.x).natAbs = (end_.y - start.y).natAbs ∧ end_.x ≠ start.x

/-- The square `end_` is on one of the rays of the sliding kind from `start`. -/
def onKindRay (kind : String) (start end_ : Position) : Prop :=
  (kind = "rook" ∧ onOrthogonalRay start end_) ∨
  (kind = "bishop" ∧ onDiagonalRay start end_) ∨
  (kind = "queen" ∧ (onOrthogonalRay start end_ ∨ onDiagonalRay start end_))

/-- The number of king steps from `start` to `end_`. -/
def rayDistance (start end_ : Position) : Nat :=
  max (end_.x - start.x).natAbs (end_.y - start.y).natAbs

/-- The square `j` steps away from `start` on the way to `end_`. -/
def squareToward (start end_ : Position) (j : Int) : Position :=
  ⟨start.x + j * Int.sign (end_.x - start.x), start.y + j * Int.sign (end_.y - start.y)⟩

/-- Every square strictly between `start` and `end_` is empty. -/
def pathClear (board : ChessBoard) (start end_ : Position) : Prop :=
  ∀ j : Nat, 1 ≤ j → j < rayDistance start end_ →
    (board.getSquare (squareToward start end_ j)).is_empty = true

instance decidableOnOrthogonalRay (start end_ : Position) :
    Decidable (onOrthogonalRay start end_) := by
  unfold onOrthogonalRay
  infer_instance

instance decidableOnDiagonalRay (start end_ : Position) :
    Decidable (onDiagonalRay start end_) := by
  unfold onDiagonalRay
  infer_instance

instance decidableOnKindRay (kind : String) (start end_ : Position) :
    Decidable (onKindRay kind start end_) := by
  unfold onKindRay
  infer_instance

instance decidablePathClear (board : ChessBoard) (start end_ : Position) :
    Decidable (pathClear board start end_) := by
  unfold pathClear
  infer_instance

/-- A unit direction: both components in `{-1, 0, 1}`, not both zero. -/
def unitDir (d : Int × Int) : Prop :=
  (d.1 = -1 ∨ d.1 = 0 ∨ d.1 = 1) ∧ (d.2 = -1 ∨ d.2 = 0 ∨ d.2 = 1) ∧ (d.1 ≠ 0 ∨ d.2 ≠ 0)

/-- The portal state after `n` successive calls of `updateCooldowns`. -/
def updateCooldownsTimes : Nat → PortalSystem → PortalSystem
  | 0, ps => ps
  | n + 1, ps => updateCooldownsTimes n ps.updateCooldowns

/-- Modelled from the spec: the `Move` record pushed when the occupant of `start` is moved to
`end_` (built by the missing `ChessBoard::movePiece`): the mover's kind and colour and the
occupant of `end_` before the move, whose kind is empty when `end_` was empty. -/
def recordMove (board : ChessBoard) (start end_ : Position) : Move :=
  { start := start
    end_ := end_
    moved_piece := (board.getSquare start).piece
    moved_piece_color := (board.getSquare start).is_white
    captured_piece := (board.getSquare end_).piece
    captured_piece_color := (board.getSquare end_).is_white }

/-- Two squares show the same thing: the same kind, and the same colour when occupied. -/
def Square.sameContent (s t : Square) : Prop :=
  s.piece = t.piece ∧ (s.is_empty = false → s.is_white = t.is_white)

/-! ## Further test positions -/

/-- A white rook on (0,0) with a white pawn on (0,2) in its file. -/
def friendlyBlockBoard : ChessBoard :=
  boardOf [(⟨0, 0⟩, ⟨"rook", true⟩), (⟨0, 2⟩, ⟨"pawn", true⟩)]

/-- White pawns on (2,1) and (5,2); only the first is on its home rank. -/
def pawnStartBoard : ChessBoard :=
  boardOf [(⟨2, 1⟩, ⟨"pawn", true⟩), (⟨5, 2⟩, ⟨"pawn", true⟩)]

/-- The position `enPassantBoard` without the black pawn: a white pawn on (3,4) alone. -/
def noEnPassantBoard : ChessBoard := boardOf [(⟨3, 4⟩, ⟨"pawn", true⟩)]

/-- The corner square of the rank of `start` on the side of `end_`. -/
def castlingCorner (start end_ : Position) : Position :=
  ⟨if end_.x > start.x then 7 else 0, start.y⟩

/-- White king on (4,0) with white rooks on (0,0) and (7,0); a white knight on (1,0). -/
def castlingBoard : ChessBoard :=
  boardOf [(⟨4, 0⟩, ⟨"king", true⟩), (⟨0, 0⟩, ⟨"rook", true⟩), (⟨7, 0⟩, ⟨"rook", true⟩),
    (⟨1, 0⟩, ⟨"knight", true⟩)]

/-! ## Sequences of portal operations -/

/-- One call made on the portal system: a use of `handlePortalMove` (on some board) or one
`updateCooldowns`. -/
inductive PortalOp where
  | use (start end_ : Position) (board : ChessBoard)
  | tick

/-- The portal state after one operation. -/
def PortalSystem.applyOp (ps : PortalSystem) : PortalOp → PortalSystem
  | PortalOp.use start end_ board => (ps.handlePortalMove start end_ board).1
  | PortalOp.tick => ps.updateCooldowns

/-- The portal state after a finite sequence of operations, in order. -/
def PortalSystem.runOps (ps : PortalSystem) (ops : List PortalOp) : PortalSystem :=
  ops.foldl PortalSystem.applyOp ps

/-- The portal list of `twoPortals`. -/
def twoPortalConfigs : List PortalConfig :=
  [⟨"A", ⟨⟨0, 0⟩, ⟨1, 1⟩⟩, ⟨["white", "black"], 2⟩⟩,
   ⟨"B", ⟨⟨2, 2⟩, ⟨3, 3⟩⟩, ⟨["white", "black"], 1⟩⟩]

/-- The game right after the pawn on (0,0) of `twoPawnsBoard` went through portal "A": the
move is on the history and the portal's counter is armed. -/
def afterPortalAGame : GameState :=
  { chess_board := afterPortalA.2
    portal_system := afterPortalA.1
    move_history := [recordMove twoPawnsBoard ⟨0, 0⟩ ⟨1, 1⟩] }

/-- A white king on (0,0) and a black king on (1,1), next to each other. -/
def adjacentKingsBoard : ChessBoard :=
  boardOf [(⟨0, 0⟩, ⟨"king", true⟩), (⟨1, 1⟩, ⟨"king", false⟩)]

/-- A white teleporter on (0,0). -/
def teleporterBoard : ChessBoard := boardOf [(⟨0, 0⟩, ⟨"teleporter", true⟩)]

/-- Two portals in a chain: (0,0) -> (3,3) and (3,3) -> (6,6), open to both colours. -/
def chainPortals : PortalSystem :=
  PortalSystem.construct
    [⟨"p1", ⟨⟨0, 0⟩, ⟨3, 3⟩⟩, ⟨["white", "black"], 1⟩⟩,
     ⟨"p2", ⟨⟨3, 3⟩, ⟨6, 6⟩⟩, ⟨["white", "black"], 1⟩⟩]

/-- The invariant kept by both operations: the configured portals stay, every counter is
non-negative and, when ids are unique, at most the cooldown length of its portal. -/
def CounterInv (portals : List PortalConfig) (ps : PortalSystem) : Prop :=
  ps.portals_ = portals ∧
    (∀ (id : String) (c : Int), ps.cooldowns_ id = some c → 0 ≤ c) ∧
    ((portals.map fun p => p.id).Nodup →
      ∀ p ∈ portals, ∀ c : Int, ps.cooldowns_ p.id = some c → c ≤ p.properties.cooldown)

/-! ## Token and counter agreement -/

/-- The sequence uses portals only while they are not in cooldown, as `validatePortalMove`
requires: every `handlePortalMove` call with an occupied entry square is made for a move whose
portal is not in cooldown. -/
def PortalSystem.usesReadyPortals : PortalSystem → List PortalOp → Bool
  | _, [] => true
  | ps, PortalOp.use start end_ board :: ops =>
    ((board.getSquare start).is_empty || !ps.isPortalInCooldown start end_) &&
      (ps.applyOp (PortalOp.use start end_ board)).usesReadyPortals ops
  | ps, PortalOp.tick :: ops => (ps.applyOp PortalOp.tick).usesReadyPortals ops

/-- The number of queued tokens carrying an id is the counter of the id (no tokens for an id
without a counter). -/
def TokenInv (ps : PortalSystem) : Prop :=
  ∀ id : String,
    (∀ c : Int, ps.cooldowns_ id = some c → c = (ps.cooldown_queue_.count id : Int)) ∧
    (ps.cooldowns_ id = none → ps.cooldown_queue_.count id = 0)

/-! ## Squares read from the board by `isValidMove`

For each function of the validator the list of the positions it passes to
`board.getSquare`, following the same control flow as the function itself. -/

/-- The squares read by one ray loop of `getMoveEdges`. -/
def castRayReads (board : ChessBoard) (pos : Position) (dx dy : Int) :
    Nat → Int → List Position
  | 0, _ => []
  | n + 1, i =>
    let p : Position := ⟨pos.x + i * dx, pos.y + i * dy⟩
    if !board.isInBounds p then []
    else p :: (if !(board.getSquare p).is_empty then []
      else castRayReads board pos dx dy n (i + 1))

/-- The squares read by the ray loops of bishop, rook and queen. -/
def slideReads (board : ChessBoard) (pos : Position) (directions : List (Int × Int)) :
    List Position :=
  directions.flatMap fun dir =>
    castRayReads board pos dir.1 dir.2 (board.getBoardSize - 1).toNat 1

/-- The squares read by the offset loops of knight and king. -/
def stepReads (board : ChessBoard) (pos : Position) (moves : List (Int × Int)) :
    List Position :=
  moves.flatMap fun move =>
    let p : Position := ⟨pos.x + move.1, pos.y + move.2⟩
    if board.isInBounds p then [p] else []

/-- The squares read by the pawn branch of `getMoveEdges`. -/
def pawnReads (board : ChessBoard) (pos : Position) (is_white : Bool) : List Position :=
  let forward : Int := if is_white then 1 else -1
  let forward_one : Position := ⟨pos.x, pos.y + forward⟩
  let forward_two : Position := ⟨pos.x, pos.y + 2 * forward⟩
  let advances : List Position :=
    if board.isInBounds forward_one then
      forward_one ::
        (if (board.getSquare forward_one).is_empty &&
            ((is_white && decide (pos.y = 1)) || (!is_white && decide (pos.y = 6))) then
          (if board.isInBounds forward_two then
            forward_two :: (if (board.getSquare forward_two).is_empty then [forward_one] else [])
          else [])
        else [])
    else []
  let captures : List Position := [⟨pos.x - 1, pos.y + forward⟩, ⟨pos.x + 1, pos.y + forward⟩]
  advances ++ captures.flatMap fun capture => if board.isInBounds capture then [capture] else []

/-- The squares read by `getMoveEdges`. -/
def getMoveEdgesReads (piece_lower : String) (pos : Position) (is_white : Bool)
    (board : ChessBoard) : List Position :=
  let piece_type := toLowerCase piece_lower
  if piece_type = "pawn" then pawnReads board pos is_white
  else if piece_type = "knight" then stepReads board pos knightMoves
  else if piece_type = "bishop" then slideReads board pos bishopDirections
  else if piece_type = "rook" then slideReads board pos rookDirections
  else if piece_type = "queen" then slideReads board pos queenDirections
  else if piece_type = "king" then stepReads board pos queenDirections
  else []

/-- The squares read by the loop of `validateCastling` between king and rook. -/
def castlingPathReads (board : ChessBoard) (y rook_x step : Int) : Nat → Int → List Position
  | 0, _ => []
  | n + 1, x =>
    if x = rook_x then []
    else ⟨x, y⟩ :: (if !(board.getSquare ⟨x, y⟩).is_empty then []
      else castlingPathReads board y rook_x step n (x + step))

/-- The squares read by `validateCastling`: the rook's corner, read without a bounds test,
then the squares between king and rook. -/
def validateCastlingReads (start end_ : Position) (is_white : Bool) (board : ChessBoard) :
    List Position :=
  if start.x ≠ 4 ∨ start.y ≠ (if is_white then 0 else 7) then []
  else
    let is_kingside := decide (end_.x > start.x)
    let rook_x : Int := if is_kingside then 7 else 0
    let rook_square := board.getSquare ⟨rook_x, start.y⟩
    (⟨rook_x, start.y⟩ : Position) ::
      (if rook_square.is_empty || toLowerCase rook_square.piece != "rook" ||
          rook_square.is_white != is_white then []
        else
          let step : Int := if is_kingside then 1 else -1
          castlingPathReads board start.y rook_x step 8 (start.x + step))

/-- The squares read by `isEnPassantMove`. -/
def isEnPassantMoveReads (start end_ : Position) (is_white : Bool) (board : ChessBoard) :
    List Position :=
  if (is_white && decide (start.y ≠ 4)) || (!is_white && decide (start.y ≠ 3)) then []
  else if (end_.x - start.x).natAbs ≠ 1 ∨ end_.y ≠ (if is_white then 5 else 2) then []
  else end_ :: (if !(board.getSquare end_).is_empty then [] else [⟨end_.x, start.y⟩])

/-- The squares read by `isValidMove`, including those read by the functions it calls
(`validatePortalMove` reads the start square). -/
def isValidMoveReads (piece : String) (start end_ : Position) (is_white : Bool)
    (board : ChessBoard) (portal_system : PortalSystem) : List Position :=
  if !board.isInBounds start then []
  else
    let start_square := board.getSquare start
    start ::
      (if start_square.is_empty || toLowerCase start_square.piece != toLowerCase piece ||
          start_square.is_white != is_white then []
        else if !board.isInBounds end_ then []
        else
          let end_square := board.getSquare end_
          end_ ::
            (if !end_square.is_empty && end_square.is_white == is_white then []
              else
                let piece_lower := toLowerCase piece
                if piece_lower = "king" ∧ (end_.x - start.x).natAbs = 2 ∧ end_.y = start.y then
                  validateCastlingReads start end_ is_white board
                else if piece_lower = "pawn" then
                  isEnPassantMoveReads start end_ is_white board ++
                    (if isEnPassantMove start end_ is_white board then []
                      else if (is_white = true ∧ end_.y = 7) ∨ (is_white = false ∧ end_.y = 0)
                      then getMoveEdgesReads piece_lower start is_white board
                      else if portal_system.isPortalMove start end_ then [start]
                      else getMoveEdgesReads piece_lower start is_white board)
                else if portal_system.isPortalMove start end_ then [start]
                else getMoveEdgesReads piece_lower start is_white board))

/-- A 7x7 board with a white king on (4,0) and nothing else. -/
def sevenBoard : ChessBoard :=
  { size := 7
    squares := fun p => if p = ⟨4, 0⟩ then ⟨"king", true⟩ else emptySquare }

/-! ## Sliding pieces (C1) -/

theorem any_matches_iff_mem (l : List Position) (e : Position) :
    l.any (fun move => decide (move.x = e.x) && decide (move.y = e.y)) = true ↔ e ∈ l := by
  simp only [List.any_eq_true, Bool.and_eq_true, decide_eq_true_eq]
  constructor
  · rintro ⟨m, hm, hx, hy⟩
    have hme : m = e := by
      cases m; cases e; simp_all
    exact hme ▸ hm
  · intro h
    exact ⟨e, h, rfl, rfl⟩

theorem mem_castRay (board : ChessBoard) (pos : Position) (dx dy : Int) (q : Position) :
    ∀ (n : Nat) (i : Int), q ∈ castRay board pos dx dy n i ↔
      ∃ k : Nat, k < n ∧ q = rayStep pos dx dy (i + k) ∧ board.isInBounds q = true ∧
        ∀ j : Nat, j < k → board.isInBounds (rayStep pos dx dy (i + j)) = true ∧
          (board.getSquare (rayStep pos dx dy (i + j))).is_empty = true := by
  intro n
  induction n with
  | zero => intro i; simp [castRay]
  | succ n ih =>
    intro i
    have h0 : rayStep pos dx dy (i + ((0 : Nat) : Int)) = ⟨pos.x + i * dx, pos.y + i * dy⟩ := by
      simp [rayStep]
    rw [castRay]
    by_cases hb : board.isInBounds ⟨pos.x + i * dx, pos.y + i * dy⟩ = true
    · by_cases he : (board.getSquare ⟨pos.x + i * dx, pos.y + i * dy⟩).is_empty = true
      · simp only [hb, he, Bool.not_true, Bool.false_eq_true, if_false, List.mem_cons, ih]
        constructor
        · rintro (hq | ⟨k, hk, hq, hqb, hall⟩)
          · refine ⟨0, by omega, by rw [h0]; exact hq, by rw [hq]; exact hb, ?_⟩
            intro j hj; omega
          · refine ⟨k + 1, by omega, ?_, hqb, ?_⟩
            · rw [hq]; congr 1; push_cast; ring
            · intro j hj
              rcases Nat.eq_zero_or_pos j with hj0 | hj0
              · subst hj0; rw [h0]; exact ⟨hb, he⟩
              · obtain ⟨j', rfl⟩ : ∃ j', j = j' + 1 := ⟨j - 1, by omega⟩
                have := hall j' (by omega)
                have e : i + 1 + (j' : Int) = i + ((j' + 1 : Nat) : Int) := by push_cast; ring
                rw [e] at this; exact this
        · rintro ⟨k, hk, hq, hqb, hall⟩
          rcases Nat.eq_zero_or_pos k with hk0 | hk0
          · subst hk0; left; rw [hq, h0]
          · right
            obtain ⟨k', rfl⟩ : ∃ k', k = k' + 1 := ⟨k - 1, by omega⟩
            refine ⟨k', by omega, ?_, hqb, ?_⟩
            · rw [hq]; congr 1; push_cast; ring
            · intro j hj
              have := hall (j + 1) (by omega)
              have e : i + 1 + (j : Int) = i + ((j + 1 : Nat) : Int) := by push_cast; ring
              rw [e]; exact this
      · simp only [hb, he, Bool.not_true, Bool.false_eq_true, if_false, Bool.not_false, if_true,
          List.mem_singleton]
        constructor
        · intro hq
          refine ⟨0, by omega, by rw [h0]; exact hq, by rw [hq]; exact hb, ?_⟩
          intro j hj; omega
        · rintro ⟨k, hk, hq, hqb, hall⟩
          rcases Nat.eq_zero_or_pos k with hk0 | hk0
          · subst hk0; rw [hq, h0]
          · have := (hall 0 hk0).2
            rw [h0] at this; exact absurd this he
    · simp only [hb, Bool.not_false, if_true, List.not_mem_nil, false_iff]
      rintro ⟨k, hk, hq, hqb, hall⟩
      rcases Nat.eq_zero_or_pos k with hk0 | hk0
      · subst hk0; rw [hq, h0] at hqb; exact hb hqb
      · have := (hall 0 hk0).1
        rw [h0] at this; exact hb this

theorem sign_cases (a : Int) :
    (0 < a ∧ Int.sign a = 1) ∨ (a = 0 ∧ Int.sign a = 0) ∨ (a < 0 ∧ Int.sign a = -1) := by
  rcases lt_trichotomy a 0 with h | h | h
  · exact Or.inr (Or.inr ⟨h, Int.sign_eq_neg_one_of_neg h⟩)
  · exact Or.inr (Or.inl ⟨h, by rw [h]; rfl⟩)
  · exact Or.inl ⟨h, Int.sign_eq_one_of_pos h⟩

theorem isInBounds_iff (b : ChessBoard) (p : Position) :
    b.isInBounds p = true ↔ 0 ≤ p.x ∧ p.x < b.size ∧ 0 ≤ p.y ∧ p.y < b.size := by
  simp [ChessBoard.isInBounds, and_assoc]

theorem mem_slideEdges (board : ChessBoard) (pos : Position) (dirs : List (Int × Int))
    (q : Position) :
    q ∈ slideEdges board pos dirs ↔
      ∃ d ∈ dirs, ∃ k : Nat, k < (board.size - 1).toNat ∧ q = rayStep pos d.1 d.2 (1 + k) ∧
        board.isInBounds q = true ∧
        ∀ j : Nat, j < k → board.isInBounds (rayStep pos d.1 d.2 (1 + j)) = true ∧
          (board.getSquare (rayStep pos d.1 d.2 (1 + j))).is_empty = true := by
  simp only [slideEdges, List.mem_flatMap, mem_castRay, ChessBoard.getBoardSize]

theorem unitDir_of_mem_queen (d : Int × Int) (h : d ∈ queenDirections) : unitDir d := by
  simp only [queenDirections, List.mem_cons, List.mem_singleton, List.not_mem_nil, or_false] at h
  rcases h with h | h | h | h | h | h | h | h <;> subst h <;> simp [unitDir]

theorem rook_sub_queen (d : Int × Int) (h : d ∈ rookDirections) : d ∈ queenDirections := by
  simp only [rookDirections, List.mem_cons, List.mem_singleton, List.not_mem_nil, or_false] at h
  rcases h with h | h | h | h <;> subst h <;> simp [queenDirections]

theorem bishop_sub_queen (d : Int × Int) (h : d ∈ bishopDirections) : d ∈ queenDirections := by
  simp only [bishopDirections, List.mem_cons, List.mem_singleton, List.not_mem_nil, or_false] at h
  rcases h with h | h | h | h <;> subst h <;> simp [queenDirections]

/-- Between two squares of the board every square of the connecting ray is on the board,
and the ray loop has enough iterations to reach the far square. -/
theorem ray_inside (board : ChessBoard) (s e : Position) (d : Int × Int) (k : Nat)
    (hd : unitDir d) (hs : board.isInBounds s = true) (he : board.isInBounds e = true)
    (heq : e = rayStep s d.1 d.2 (1 + k)) :
    k < (board.size - 1).toNat ∧
      ∀ j : Nat, j < k → board.isInBounds (rayStep s d.1 d.2 (1 + j)) = true := by
  obtain ⟨d1, d2⟩ := d
  obtain ⟨h1, h2, h3⟩ := hd
  simp only at h1 h2 h3
  rw [isInBounds_iff] at hs he
  subst heq
  simp only [rayStep] at he
  refine ⟨?_, ?_⟩
  · rcases h1 with h1 | h1 | h1 <;> rcases h2 with h2 | h2 | h2 <;> subst h1 <;> subst h2 <;> omega
  · intro j hj
    rw [isInBounds_iff]
    simp only [rayStep]
    rcases h1 with h1 | h1 | h1 <;> rcases h2 with h2 | h2 | h2 <;> subst h1 <;> subst h2 <;> omega

/-- Geometry of a ray step: the direction is the sign of the displacement and the step
count is the king distance. -/
theorem ray_geometry (s e : Position) (d : Int × Int) (k : Nat) (hd : unitDir d)
    (heq : e = rayStep s d.1 d.2 (1 + k)) :
    Int.sign (e.x - s.x) = d.1 ∧ Int.sign (e.y - s.y) = d.2 ∧ rayDistance s e = k + 1 := by
  obtain ⟨d1, d2⟩ := d
  obtain ⟨h1, h2, h3⟩ := hd
  simp only at h1 h2 h3
  subst heq
  simp only [rayStep, rayDistance]
  rcases sign_cases (s.x + (1 + (k : Int)) * d1 - s.x) with ⟨ha, hsa⟩ | ⟨ha, hsa⟩ | ⟨ha, hsa⟩ <;>
  rcases sign_cases (s.y + (1 + (k : Int)) * d2 - s.y) with ⟨hb, hsb⟩ | ⟨hb, hsb⟩ | ⟨hb, hsb⟩ <;>
  rw [hsa, hsb] <;>
  rcases h1 with h1 | h1 | h1 <;> rcases h2 with h2 | h2 | h2 <;> subst h1 <;> subst h2 <;>
    first | (exfalso; omega) | (refine ⟨rfl, rfl, ?_⟩; omega)

theorem squareToward_eq (s e : Position) (j : Int) :
    squareToward s e j = rayStep s (Int.sign (e.x - s.x)) (Int.sign (e.y - s.y)) j := rfl

/-- A square on an orthogonal or diagonal ray is reached by stepping in the direction of
the signs of the displacement, king-distance many times. -/
theorem ray_of_geometry (s e : Position)
    (h : onOrthogonalRay s e ∨ onDiagonalRay s e) :
    e = rayStep s (Int.sign (e.x - s.x)) (Int.sign (e.y - s.y))
          (1 + ((rayDistance s e - 1 : Nat) : Int)) ∧ 1 ≤ rayDistance s e := by
  obtain ⟨ex, ey⟩ := e
  simp only [onOrthogonalRay, onDiagonalRay, rayStep, rayDistance, Position.mk.injEq] at h ⊢
  rcases sign_cases (ex - s.x) with ⟨ha, hsa⟩ | ⟨ha, hsa⟩ | ⟨ha, hsa⟩ <;>
  rcases sign_cases (ey - s.y) with ⟨hb, hsb⟩ | ⟨hb, hsb⟩ | ⟨hb, hsb⟩ <;>
  rw [hsa, hsb] <;> omega

theorem orthogonal_dir (s e : Position) (h : onOrthogonalRay s e) :
    (Int.sign (e.x - s.x), Int.sign (e.y - s.y)) ∈ rookDirections := by
  simp only [onOrthogonalRay] at h
  rcases sign_cases (e.x - s.x) with ⟨ha, hsa⟩ | ⟨ha, hsa⟩ | ⟨ha, hsa⟩ <;>
  rcases sign_cases (e.y - s.y) with ⟨hb, hsb⟩ | ⟨hb, hsb⟩ | ⟨hb, hsb⟩ <;>
  rw [hsa, hsb] <;> first | (exfalso; omega) | simp [rookDirections]

theorem diagonal_dir (s e : Position) (h : onDiagonalRay s e) :
    (Int.sign (e.x - s.x), Int.sign (e.y - s.y)) ∈ bishopDirections := by
  simp only [onDiagonalRay] at h
  rcases sign_cases (e.x - s.x) with ⟨ha, hsa⟩ | ⟨ha, hsa⟩ | ⟨ha, hsa⟩ <;>
  rcases sign_cases (e.y - s.y) with ⟨hb, hsb⟩ | ⟨hb, hsb⟩ | ⟨hb, hsb⟩ <;>
  rw [hsa, hsb] <;> first | (exfalso; omega) | simp [bishopDirections]

theorem orthogonal_of_dir (s e : Position) (d : Int × Int) (k : Nat) (hd : d ∈ rookDirections)
    (heq : e = rayStep s d.1 d.2 (1 + k)) : onOrthogonalRay s e := by
  simp only [rookDirections, List.mem_cons, List.mem_singleton, List.not_mem_nil, or_false] at hd
  subst heq
  rcases hd with h | h | h | h <;> subst h <;> simp only [onOrthogonalRay, rayStep] <;> omega

theorem diagonal_of_dir (s e : Position) (d : Int × Int) (k : Nat) (hd : d ∈ bishopDirections)
    (heq : e = rayStep s d.1 d.2 (1 + k)) : onDiagonalRay s e := by
  simp only [bishopDirections, List.mem_cons, List.mem_singleton, List.not_mem_nil,
    or_false] at hd
  subst heq
  rcases hd with h | h | h | h <;> subst h <;> simp only [onDiagonalRay, rayStep] <;> omega

/-- Membership in the list built by the ray loops, for a direction table `dirs` whose
rays are described by `R`. -/
theorem mem_slideEdges_iff (board : ChessBoard) (s e : Position) (dirs : List (Int × Int))
    (R : Prop) (hunit : ∀ d ∈ dirs, unitDir d)
    (hs : board.isInBounds s = true) (he : board.isInBounds e = true)
    (hfw : ∀ d ∈ dirs, ∀ k : Nat, e = rayStep s d.1 d.2 (1 + k) → R)
    (hbw : R → (Int.sign (e.x - s.x), Int.sign (e.y - s.y)) ∈ dirs ∧
      (onOrthogonalRay s e ∨ onDiagonalRay s e)) :
    e ∈ slideEdges board s dirs ↔ R ∧ pathClear board s e := by
  rw [mem_slideEdges]
  constructor
  · rintro ⟨d, hd, k, hk, heq, -, hall⟩
    refine ⟨hfw d hd k heq, ?_⟩
    intro j hj0 hjlt
    obtain ⟨hsx, hsy, hdist⟩ := ray_geometry s e d k (hunit d hd) heq
    rw [squareToward_eq, hsx, hsy]
    have := (hall (j - 1) (by omega)).2
    have hj : (1 : Int) + ((j - 1 : Nat) : Int) = (j : Int) := by omega
    rw [hj] at this
    exact this
  · rintro ⟨hR, hclear⟩
    obtain ⟨hd, hgeo⟩ := hbw hR
    obtain ⟨heq, hpos⟩ := ray_of_geometry s e hgeo
    obtain ⟨hk, hin⟩ := ray_inside board s e _ _ (hunit _ hd) hs he heq
    refine ⟨_, hd, rayDistance s e - 1, hk, heq, he, ?_⟩
    intro j hj
    refine ⟨hin j hj, ?_⟩
    have := hclear (j + 1) (by omega) (by omega)
    rw [squareToward_eq] at this
    have hj' : (((j + 1 : Nat)) : Int) = 1 + (j : Int) := by omega
    rw [hj'] at this
    exact this

theorem getMoveEdges_rook (piece_lower : String) (pos : Position) (w : Bool) (board : ChessBoard)
    (h : piece_lower = "rook") :
    getMoveEdges piece_lower pos w board = slideEdges board pos rookDirections := by
  subst h
  have hl : toLowerCase "rook" = "rook" := by decide
  simp only [getMoveEdges, hl]
  rfl

theorem getMoveEdges_bishop (piece_lower : String) (pos : Position) (w : Bool)
    (board : ChessBoard) (h : piece_lower = "bishop") :
    getMoveEdges piece_lower pos w board = slideEdges board pos bishopDirections := by
  subst h
  have hl : toLowerCase "bishop" = "bishop" := by decide
  simp only [getMoveEdges, hl]
  rfl

theorem getMoveEdges_queen (piece_lower : String) (pos : Position) (w : Bool)
    (board : ChessBoard) (h : piece_lower = "queen") :
    getMoveEdges piece_lower pos w board = slideEdges board pos queenDirections := by
  subst h
  have hl : toLowerCase "queen" = "queen" := by decide
  simp only [getMoveEdges, hl]
  rfl

/-- For a sliding kind the reachable-square list holds exactly the squares on a ray of the
kind with a clear path. -/
theorem mem_getMoveEdges_slider (board : ChessBoard) (kind : String) (s e : Position) (w : Bool)
    (hkind : kind = "rook" ∨ kind = "bishop" ∨ kind = "queen")
    (hs : board.isInBounds s = true) (he : board.isInBounds e = true) :
    e ∈ getMoveEdges kind s w board ↔ onKindRay kind s e ∧ pathClear board s e := by
  rcases hkind with h | h | h
  · rw [getMoveEdges_rook _ _ _ _ h]
    subst h
    have hR : onKindRay "rook" s e ↔ onOrthogonalRay s e := by
      simp [onKindRay]
    rw [hR]
    exact mem_slideEdges_iff board s e rookDirections _
      (fun d hd => unitDir_of_mem_queen d (rook_sub_queen d hd)) hs he
      (fun d hd k heq => orthogonal_of_dir s e d k hd heq)
      (fun h => ⟨orthogonal_dir s e h, Or.inl h⟩)
  · rw [getMoveEdges_bishop _ _ _ _ h]
    subst h
    have hR : onKindRay "bishop" s e ↔ onDiagonalRay s e := by
      simp [onKindRay]
    rw [hR]
    exact mem_slideEdges_iff board s e bishopDirections _
      (fun d hd => unitDir_of_mem_queen d (bishop_sub_queen d hd)) hs he
      (fun d hd k heq => diagonal_of_dir s e d k hd heq)
      (fun h => ⟨diagonal_dir s e h, Or.inr h⟩)
  · rw [getMoveEdges_queen _ _ _ _ h]
    subst h
    have hR : onKindRay "queen" s e ↔ (onOrthogonalRay s e ∨ onDiagonalRay s e) := by
      simp [onKindRay]
    rw [hR]
    refine mem_slideEdges_iff board s e queenDirections _
      (fun d hd => unitDir_of_mem_queen d hd) hs he ?_ ?_
    · intro d hd k heq
      simp only [queenDirections, List.mem_cons, List.mem_singleton, List.not_mem_nil,
        or_false] at hd
      rcases hd with h | h | h | h | h | h | h | h
      · exact Or.inl (orthogonal_of_dir s e d k (by rw [h]; decide) heq)
      · exact Or.inl (orthogonal_of_dir s e d k (by rw [h]; decide) heq)
      · exact Or.inl (orthogonal_of_dir s e d k (by rw [h]; decide) heq)
      · exact Or.inl (orthogonal_of_dir s e d k (by rw [h]; decide) heq)
      · exact Or.inr (diagonal_of_dir s e d k (by rw [h]; decide) heq)
      · exact Or.inr (diagonal_of_dir s e d k (by rw [h]; decide) heq)
      · exact Or.inr (diagonal_of_dir s e d k (by rw [h]; decide) heq)
      · exact Or.inr (diagonal_of_dir s e d k (by rw [h]; decide) heq)
    · intro h
      refine ⟨?_, h⟩
      rcases h with h | h
      · exact rook_sub_queen _ (orthogonal_dir s e h)
      · exact bishop_sub_queen _ (diagonal_dir s e h)

/-- C1: for a rook, bishop or queen standing on `start` (start checks passed, `end_` on the
board, the pair not a configured portal), `isValidMove` holds exactly when `end_` is on one
of the kind's rays from `start`, every square strictly between is empty, and `end_` is empty
or holds an enemy piece. -/
theorem slider_move_iff_ray (board : ChessBoard) (portal_system : PortalSystem)
    (piece : String) (start end_ : Position) (is_white : Bool)
    (hkind : toLowerCase piece = "rook" ∨ toLowerCase piece = "bishop" ∨
      toLowerCase piece = "queen")
    (hs : board.isInBounds start = true)
    (hocc : (board.getSquare start).is_empty = false)
    (hk : toLowerCase (board.getSquare start).piece = toLowerCase piece)
    (hc : (board.getSquare start).is_white = is_white)
    (he : board.isInBounds end_ = true)
    (hnp : portal_system.isPortalMove start end_ = false) :
    isValidMove piece start end_ is_white board portal_system = true ↔
      onKindRay (toLowerCase piece) start end_ ∧ pathClear board start end_ ∧
        ((board.getSquare end_).is_empty = true ∨
          (board.getSquare end_).is_white ≠ is_white) := by
  have hking : toLowerCase piece ≠ "king" := by
    rcases hkind with h | h | h <;> rw [h] <;> decide
  have hpawn : toLowerCase piece ≠ "pawn" := by
    rcases hkind with h | h | h <;> rw [h] <;> decide
  have hmem := mem_getMoveEdges_slider board (toLowerCase piece) start end_ is_white hkind hs he
  have hany := (any_matches_iff_mem (getMoveEdges (toLowerCase piece) start is_white board)
    end_).trans hmem
  unfold isValidMove
  simp only [hs, hocc, hk, hc, he, hnp, hking, hpawn, false_and, if_false, Bool.not_true,
    Bool.false_eq_true, bne_self_eq_false, Bool.or_self]
  by_cases hee : (board.getSquare end_).is_empty = true
  · simpa [hee] using hany
  · by_cases hcol : (board.getSquare end_).is_white = is_white
    · simp [hee, hcol]
    · simpa [hee, hcol] using hany


/-- C1 witness: the black queen of `mateBoard` on (0,3) reaches (0,0), so that square is on
a queen ray with a clear path and holds an enemy piece. -/
theorem slider_move_iff_ray_witness :
    onKindRay (toLowerCase "queen") ⟨0, 3⟩ ⟨0, 0⟩ ∧ pathClear mateBoard ⟨0, 3⟩ ⟨0, 0⟩ ∧
      ((mateBoard.getSquare ⟨0, 0⟩).is_empty = true ∨
        (mateBoard.getSquare ⟨0, 0⟩).is_white ≠ false) :=
  (slider_move_iff_ray mateBoard noPortals "queen" ⟨0, 3⟩ ⟨0, 0⟩ false
    (by decide) (by decide) (by decide) (by decide) (by decide) (by decide) (by decide)).mp
    (by decide!)

/-! ## Checkmate (C2) -/

theorem mem_scanPositions (board : ChessBoard) (p : Position) :
    p ∈ scanPositions board ↔ board.isInBounds p = true := by
  rw [isInBounds_iff]
  simp only [scanPositions, ChessBoard.getBoardSize, List.mem_flatMap, List.mem_map,
    List.mem_range]
  constructor
  · rintro ⟨y, hy, x, hx, rfl⟩
    simp only
    omega
  · rintro ⟨h1, h2, h3, h4⟩
    refine ⟨p.y.toNat, by omega, p.x.toNat, by omega, ?_⟩
    obtain ⟨px, py⟩ := p
    simp only at h1 h2 h3 h4
    simp only [Position.mk.injEq]
    omega

theorem not_same_square (s e : Position) :
    (decide (s.x = e.x) && decide (s.y = e.y)) = false ↔ e ≠ s := by
  obtain ⟨sx, sy⟩ := s
  obtain ⟨ex, ey⟩ := e
  simp only [Bool.and_eq_false_imp, decide_eq_true_eq, decide_eq_false_iff_not,
    ne_eq, Position.mk.injEq, not_and]
  constructor
  · intro h h1 h2; exact h h1.symm h2.symm
  · intro h h1 h2; exact h h1.symm h2.symm

/-- The loops of `isCheckmate` in logical form. -/
theorem isCheckmate_eq_true_iff (board : ChessBoard) (ps : PortalSystem) (c : Bool) :
    isCheckmate board ps c = true ↔
      isInCheck board ps c = true ∧
        ∀ s e : Position, board.isInBounds s = true → board.isInBounds e = true →
          (board.getSquare s).is_empty = false → (board.getSquare s).is_white = c → e ≠ s →
          isValidMove (board.getSquare s).piece s e c board ps = true →
          isInCheck (relocatePiece board s e) ps c = true := by
  unfold isCheckmate
  by_cases hchk : isInCheck board ps c = true
  · simp only [hchk, Bool.not_true, Bool.false_eq_true, if_false, true_and, Bool.not_eq_true',
      List.any_eq_false, Bool.and_eq_true, List.any_eq_true, mem_scanPositions,
      Bool.not_eq_true', Bool.not_eq_false', beq_iff_eq, not_and, not_exists,
      Bool.not_eq_false]
    constructor
    · intro h s e hs he hocc hcol hne hv
      exact h s hs ⟨hocc, hcol⟩ e he ⟨(not_same_square s e).2 hne, hv⟩
    · intro h s hs hsq e he hm
      exact h s e hs he hsq.1 hsq.2 ((not_same_square s e).1 hm.1) hm.2
  · simp [hchk]


/-- C2: `isCheckmate` holds exactly when the colour is in check and every valid move of
every piece of the colour to another square of the board leaves it in check on the board copy
with the piece relocated; a colour not in check is never checkmated.  On the 8x8 board with
the white king on (0,0), a black queen on (0,3) and a black rook on (1,7) white is
checkmated; with an additional white bishop on (2,3), which can move to (0,1), it is not. -/
theorem checkmate_iff_no_saving_move :
    (∀ (board : ChessBoard) (ps : PortalSystem) (c : Bool),
      isCheckmate board ps c = true ↔
        isInCheck board ps c = true ∧
          ∀ s e : Position, board.isInBounds s = true → board.isInBounds e = true →
            (board.getSquare s).is_empty = false → (board.getSquare s).is_white = c → e ≠ s →
            isValidMove (board.getSquare s).piece s e c board ps = true →
            isInCheck (relocatePiece board s e) ps c = true) ∧
    (∀ (board : ChessBoard) (ps : PortalSystem) (c : Bool),
      isInCheck board ps c = false → isCheckmate board ps c = false) ∧
    isCheckmate mateBoard noPortals true = true ∧
    isValidMove "bishop" ⟨2, 3⟩ ⟨0, 1⟩ true blockBoard noPortals = true ∧
    isInCheck (relocatePiece blockBoard ⟨2, 3⟩ ⟨0, 1⟩) noPortals true = false ∧
    isCheckmate blockBoard noPortals true = false := by
  refine ⟨isCheckmate_eq_true_iff, ?_, by decide!, by decide!, by decide!, by decide!⟩
  intro board ps c h
  simp [isCheckmate, h]

/-! ## Stalemate (C3, C4) -/

theorem mem_scanOffsets (board : ChessBoard) (d : Int) :
    d ∈ scanOffsets board ↔ -board.size ≤ d ∧ d ≤ board.size := by
  simp only [scanOffsets, ChessBoard.getBoardSize, List.mem_map, List.mem_range]
  constructor
  · rintro ⟨i, hi, rfl⟩
    omega
  · rintro ⟨h1, h2⟩
    exact ⟨(d + board.size).toNat, by omega, by omega⟩

/-- The destinations examined by the offset scan of `isStalemate` around a square of the
board are exactly the other squares of the board. -/
theorem offset_scan_covers_board (board : ChessBoard) (s e : Position)
    (hs : board.isInBounds s = true) :
    (∃ dy ∈ scanOffsets board, ∃ dx ∈ scanOffsets board,
        (decide (dx = 0) && decide (dy = 0)) = false ∧ e = ⟨s.x + dx, s.y + dy⟩ ∧
          board.isInBounds e = true) ↔
      (board.isInBounds e = true ∧ e ≠ s) := by
  obtain ⟨sx, sy⟩ := s
  obtain ⟨ex, ey⟩ := e
  simp only [mem_scanOffsets, isInBounds_iff, Bool.and_eq_false_imp, decide_eq_true_eq,
    decide_eq_false_iff_not, ne_eq, Position.mk.injEq, not_and] at hs ⊢
  constructor
  · rintro ⟨dy, hdy, dx, hdx, hnz, ⟨rfl, rfl⟩, hb⟩
    refine ⟨hb, ?_⟩
    intro h1 h2
    exact hnz (by omega) (by omega)
  · rintro ⟨hb, hne⟩
    refine ⟨ey - sy, by omega, ex - sx, by omega, ?_, ⟨by omega, by omega⟩, hb⟩
    intro h1 h2
    exact hne (by omega) (by omega)

/-- The loops of `isStalemate` in logical form. -/
theorem isStalemate_eq_true_iff (board : ChessBoard) (ps : PortalSystem) (c : Bool) :
    isStalemate board ps c = true ↔
      isInCheck board ps c = false ∧
        ∀ s e : Position, board.isInBounds s = true → board.isInBounds e = true →
          (board.getSquare s).is_empty = false → (board.getSquare s).is_white = c → e ≠ s →
          isValidMove (board.getSquare s).piece s e c board ps = false := by
  unfold isStalemate
  by_cases hchk : isInCheck board ps c = true
  · simp [hchk]
  · simp only [hchk, Bool.false_eq_true, if_false, Bool.not_eq_true', List.any_eq_false,
      Bool.and_eq_true, List.any_eq_true, mem_scanPositions, Bool.not_eq_false', beq_iff_eq,
      not_and, not_exists, Bool.not_eq_true, true_and]
    constructor
    · intro h s e hs he hocc hcol hne
      obtain ⟨dy, hdy, dx, hdx, hnz, heq, -⟩ :=
        (offset_scan_covers_board board s e hs).2 ⟨he, hne⟩
      have := h s hs ⟨hocc, hcol⟩ dy hdy dx hdx ⟨hnz, heq ▸ he⟩
      rw [heq]
      exact this
    · intro h s hs hsq dy hdy dx hdx hm
      have hcov := (offset_scan_covers_board board s ⟨s.x + dx, s.y + dy⟩ hs).1
        ⟨dy, hdy, dx, hdx, hm.1, rfl, hm.2⟩
      exact h s _ hs hcov.1 hsq.1 hsq.2 hcov.2

/-- C3: `isStalemate` holds exactly when the colour is not in check and no piece of the
colour has a valid move to any other square of the whole board; the offsets in `[-N, N]`
around a piece reach exactly the squares of the board other than the piece's own. -/
theorem stalemate_iff_no_valid_move :
    (∀ (board : ChessBoard) (ps : PortalSystem) (c : Bool),
      isStalemate board ps c = true ↔
        isInCheck board ps c = false ∧
          ∀ s e : Position, board.isInBounds s = true → board.isInBounds e = true →
            (board.getSquare s).is_empty = false → (board.getSquare s).is_white = c → e ≠ s →
            isValidMove (board.getSquare s).piece s e c board ps = false) ∧
    (∀ (board : ChessBoard) (s e : Position), board.isInBounds s = true →
      ((∃ dy ∈ scanOffsets board, ∃ dx ∈ scanOffsets board,
          (decide (dx = 0) && decide (dy = 0)) = false ∧ e = ⟨s.x + dx, s.y + dy⟩ ∧
            board.isInBounds e = true) ↔
        (board.isInBounds e = true ∧ e ≠ s))) :=
  ⟨isStalemate_eq_true_iff, offset_scan_covers_board⟩

/-- C4 (evaluation of the code): on `staleBoard` (white king on (0,0), black queen on (1,2))
white owns only the king, is not in check, and the queen controls (0,1), (1,0) and (1,1);
yet the king's step to (0,1) passes `isValidMove` and `isStalemate` returns false. -/
theorem stalemate_ignores_king_safety :
    isInCheck staleBoard noPortals true = false ∧
    isValidMove "queen" ⟨1, 2⟩ ⟨0, 1⟩ false staleBoard noPortals = true ∧
    isValidMove "queen" ⟨1, 2⟩ ⟨1, 0⟩ false staleBoard noPortals = true ∧
    isValidMove "queen" ⟨1, 2⟩ ⟨1, 1⟩ false staleBoard noPortals = true ∧
    isValidMove "king" ⟨0, 0⟩ ⟨0, 1⟩ true staleBoard noPortals = true ∧
    isInCheck (relocatePiece staleBoard ⟨0, 0⟩ ⟨0, 1⟩) noPortals true = true ∧
    isStalemate staleBoard noPortals true = false := by
  refine ⟨by decide!, by decide!, by decide!, by decide!, by decide!, by decide!, by decide!⟩

/-! ## Check and portals (C5) -/

theorem any_congr_of_mem {α : Type} (l : List α) (f g : α → Bool)
    (h : ∀ a ∈ l, f a = g a) : l.any f = l.any g := by
  induction l with
  | nil => rfl
  | cons a l ih =>
    simp only [List.any_cons]
    rw [h a (List.mem_cons_self a l), ih (fun b hb => h b (List.mem_cons_of_mem a hb))]

/-- The portal system enters `isValidMove` only through the portal branch. -/
theorem isValidMove_portal_free (piece : String) (start end_ : Position) (w : Bool)
    (board : ChessBoard) (ps1 ps2 : PortalSystem)
    (h1 : ps1.isPortalMove start end_ = false) (h2 : ps2.isPortalMove start end_ = false) :
    isValidMove piece start end_ w board ps1 = isValidMove piece start end_ w board ps2 := by
  simp only [isValidMove, h1, h2, Bool.false_eq_true, if_false]

/-- C5 (counterexample): the result of `isInCheck` depends on the portal system.  A black
rook on (1,1) does not attack the white king on (0,0), but a ready portal (1,1) -> (0,0) open
to black makes `isInCheck` true; a black rook on (0,3) does attack the king, but a portal
(0,3) -> (0,0) closed to black makes `isInCheck` false. -/
theorem isInCheck_depends_on_portals :
    isInCheck offRayBoard noPortals true ≠
        isInCheck offRayBoard (singlePortal ⟨1, 1⟩ ⟨0, 0⟩ ["black"] 2) true ∧
    isInCheck offRayBoard (singlePortal ⟨1, 1⟩ ⟨0, 0⟩ ["black"] 2) true = true ∧
    isInCheck onRayBoard noPortals true ≠
        isInCheck onRayBoard (singlePortal ⟨0, 3⟩ ⟨0, 0⟩ ["white"] 2) true ∧
    isInCheck onRayBoard (singlePortal ⟨0, 3⟩ ⟨0, 0⟩ ["white"] 2) true = false := by
  refine ⟨by decide!, by decide!, by decide!, by decide!⟩

/-- C5 (amended): two portal systems give the same `isInCheck` result whenever neither has
a configured portal leading to the king's square from a square that holds an opposing
queen, rook, bishop, knight or pawn. -/
theorem isInCheck_same_without_portal_to_king (board : ChessBoard) (c : Bool)
    (ps1 ps2 : PortalSystem)
    (h : ∀ k s : Position, findKing board c = some k → board.isInBounds s = true →
      (board.getSquare s).is_empty = false → (board.getSquare s).is_white ≠ c →
      toLowerCase (board.getSquare s).piece ∈ threatening_pieces →
      ps1.isPortalMove s k = false ∧ ps2.isPortalMove s k = false) :
    isInCheck board ps1 c = isInCheck board ps2 c := by
  unfold isInCheck
  cases hk : findKing board c with
  | none => rfl
  | some k =>
    simp only
    apply any_congr_of_mem
    intro s hs
    rw [mem_scanPositions] at hs
    by_cases hocc : (board.getSquare s).is_empty = false
    · by_cases hcol : (board.getSquare s).is_white = c
      · simp [hcol]
      · by_cases hthr : toLowerCase (board.getSquare s).piece ∈ threatening_pieces
        · obtain ⟨h1, h2⟩ := h k s hk hs hocc hcol hthr
          rw [isValidMove_portal_free _ s k _ board ps1 ps2 h1 h2]
        · simp [hthr]
    · have : (board.getSquare s).is_empty = true := by simpa using hocc
      simp [this]

/-- C5 witness: `mateBoard` with no portals and with one portal away from the king. -/
theorem isInCheck_same_without_portal_to_king_witness :
    isInCheck mateBoard noPortals true =
      isInCheck mateBoard (singlePortal ⟨5, 5⟩ ⟨6, 6⟩ ["black"] 2) true :=
  isInCheck_same_without_portal_to_king mateBoard true noPortals
    (singlePortal ⟨5, 5⟩ ⟨6, 6⟩ ["black"] 2) (by
      intro k s hk _ _ _ _
      have hk0 : findKing mateBoard true = some ⟨0, 0⟩ := by decide!
      rw [hk0] at hk
      cases hk
      constructor
      · rfl
      · simp [singlePortal, PortalSystem.construct, PortalSystem.isPortalMove,
          PortalConfig.matchesMove])

/-! ## Portal cooldowns (C6) -/

theorem updateCooldownsTimes_add (m n : Nat) (ps : PortalSystem) :
    updateCooldownsTimes (m + n) ps = updateCooldownsTimes n (updateCooldownsTimes m ps) := by
  induction m generalizing ps with
  | zero => simp [updateCooldownsTimes]
  | succ m ih =>
    rw [Nat.add_right_comm]
    simp only [updateCooldownsTimes]
    exact ih _

/-- One `updateCooldowns` call whose front token belongs to another portal. -/
theorem updateCooldowns_other (ps : PortalSystem) (t id : String) (rest : List String)
    (hq : ps.cooldown_queue_ = t :: rest) (hne : id ≠ t) :
    ps.updateCooldowns.cooldown_queue_ = rest ∧
      ps.updateCooldowns.cooldowns_ id = ps.cooldowns_ id := by
  cases hc : ps.cooldowns_ t with
  | none => simp [PortalSystem.updateCooldowns, hq, hc]
  | some c =>
    by_cases hpos : c > 0
    · simp [PortalSystem.updateCooldowns, hq, hc, hpos, hne]
    · simp [PortalSystem.updateCooldowns, hq, hc, hpos]

/-- One `updateCooldowns` call whose front token belongs to the portal, counter positive. -/
theorem updateCooldowns_own (ps : PortalSystem) (id : String) (rest : List String) (c : Int)
    (hq : ps.cooldown_queue_ = id :: rest) (hc : ps.cooldowns_ id = some c) (hpos : 0 < c) :
    ps.updateCooldowns.cooldown_queue_ = rest ∧
      ps.updateCooldowns.cooldowns_ id = some (c - 1) := by
  simp [PortalSystem.updateCooldowns, hq, hc, hpos]

/-- Tokens of other portals ahead in the queue are consumed without touching the counter. -/
theorem skip_foreign_tokens (id : String) (rest : List String) :
    ∀ (q1 : List String) (ps : PortalSystem), ps.cooldown_queue_ = q1 ++ rest → id ∉ q1 →
      ∀ n : Nat, n ≤ q1.length →
        (updateCooldownsTimes n ps).cooldown_queue_ = q1.drop n ++ rest ∧
          (updateCooldownsTimes n ps).cooldowns_ id = ps.cooldowns_ id := by
  intro q1
  induction q1 with
  | nil =>
    intro ps hq _ n hn
    have : n = 0 := by simpa using hn
    subst this
    exact ⟨by simpa [updateCooldownsTimes] using hq, rfl⟩
  | cons t q1 ih =>
    intro ps hq hmem n hn
    cases n with
    | zero => exact ⟨by simpa [updateCooldownsTimes] using hq, rfl⟩
    | succ n =>
      have hne : id ≠ t := fun h => hmem (h ▸ List.mem_cons_self _ _)
      obtain ⟨h1, h2⟩ := updateCooldowns_other ps t id (q1 ++ rest) (by simpa using hq) hne
      obtain ⟨h3, h4⟩ := ih ps.updateCooldowns h1
        (fun h => hmem (List.mem_cons_of_mem _ h)) n (by simpa using hn)
      simp only [updateCooldownsTimes, List.drop_succ_cons]
      exact ⟨h3, h4.trans h2⟩

/-- The portal's own tokens lower its counter one by one. -/
theorem consume_own_tokens (id : String) (rest : List String) :
    ∀ (j n : Nat) (c : Int) (ps : PortalSystem),
      ps.cooldown_queue_ = List.replicate n id ++ rest → ps.cooldowns_ id = some c →
      (n : Int) ≤ c → j ≤ n →
        (updateCooldownsTimes j ps).cooldown_queue_ = List.replicate (n - j) id ++ rest ∧
          (updateCooldownsTimes j ps).cooldowns_ id = some (c - j) := by
  intro j
  induction j with
  | zero =>
    intro n c ps hq hc _ _
    exact ⟨by simpa [updateCooldownsTimes] using hq, by simpa [updateCooldownsTimes] using hc⟩
  | succ j ih =>
    intro n c ps hq hc hle hj
    obtain ⟨n', rfl⟩ : ∃ n', n = n' + 1 := ⟨n - 1, by omega⟩
    obtain ⟨h1, h2⟩ := updateCooldowns_own ps id (List.replicate n' id ++ rest) c
      (by simpa [List.replicate_succ] using hq) hc (by omega)
    obtain ⟨h3, h4⟩ := ih n' (c - 1) ps.updateCooldowns h1 h2 (by omega) (by omega)
    simp only [updateCooldownsTimes]
    refine ⟨by simpa using h3, ?_⟩
    rw [h4]
    congr 1
    push_cast
    ring

/-- The effect of `handlePortalMove` on the portal state when the first matching portal is
`portal` and the entry square is occupied. -/
theorem handlePortalMove_arms (ps : PortalSystem) (board : ChessBoard) (start end_ : Position)
    (portal : PortalConfig)
    (hfind : ps.portals_.find? (fun q => q.matchesMove start end_) = some portal)
    (hocc : (board.getSquare start).is_empty = false) :
    (ps.handlePortalMove start end_ board).1.cooldowns_ portal.id =
        some portal.properties.cooldown ∧
      (ps.handlePortalMove start end_ board).1.cooldown_queue_ =
        ps.cooldown_queue_ ++ List.replicate portal.properties.cooldown.toNat portal.id ∧
      (ps.handlePortalMove start end_ board).1.portals_ = ps.portals_ := by
  simp [PortalSystem.handlePortalMove, hfind, hocc]

/-- C6 (counterexample): portal "B" (cooldown length 1) is used right after portal "A"
(cooldown length 2), a state reached from the constructed system.  Its counter is 1 and its
token is queued behind the two tokens of "A"; after 1 call of `updateCooldowns` the counter of
"B" is still 1, and it reaches 0 only with the third call. -/
theorem cooldown_outlasts_own_length :
    afterPortalB.1.cooldowns_ "B" = some 1 ∧
    afterPortalB.1.cooldown_queue_ = ["A", "A", "B"] ∧
    (updateCooldownsTimes 1 afterPortalB.1).cooldowns_ "B" = some 1 ∧
    (updateCooldownsTimes 2 afterPortalB.1).cooldowns_ "B" = some 1 ∧
    (updateCooldownsTimes 3 afterPortalB.1).cooldowns_ "B" = some 0 := by
  refine ⟨by decide!, by decide!, by decide!, by decide!, by decide!⟩

/-- C6 (amended): using a portal of cooldown length `K ≥ 0` through `handlePortalMove` (entry
square occupied) sets its counter to `K` and appends `K` tokens to the queue.  If `m`
tokens were pending at that moment, none of them carrying this portal's id, then with no
other portal use the counter stays `K` during the first `m` calls of `updateCooldowns`, is
`K - j` after `m + j` calls (`j ≤ K`), and so is 0 after exactly `m + K` calls; with an empty
queue (`m = 0`) that is after exactly `K` calls. -/
theorem cooldown_expires_after_pending_plus_length (ps : PortalSystem) (board : ChessBoard)
    (start end_ : Position) (portal : PortalConfig)
    (hfind : ps.portals_.find? (fun q => q.matchesMove start end_) = some portal)
    (hocc : (board.getSquare start).is_empty = false)
    (hK : 0 ≤ portal.properties.cooldown)
    (hq : portal.id ∉ ps.cooldown_queue_) :
    (ps.handlePortalMove start end_ board).1.cooldowns_ portal.id =
        some portal.properties.cooldown ∧
      (ps.handlePortalMove start end_ board).1.cooldown_queue_ =
        ps.cooldown_queue_ ++ List.replicate portal.properties.cooldown.toNat portal.id ∧
      (∀ n : Nat, n ≤ ps.cooldown_queue_.length →
        (updateCooldownsTimes n (ps.handlePortalMove start end_ board).1).cooldowns_ portal.id =
          some portal.properties.cooldown) ∧
      (∀ j : Nat, (j : Int) ≤ portal.properties.cooldown →
        (updateCooldownsTimes (ps.cooldown_queue_.length + j)
          (ps.handlePortalMove start end_ board).1).cooldowns_ portal.id =
          some (portal.properties.cooldown - j)) ∧
      (updateCooldownsTimes (ps.cooldown_queue_.length + portal.properties.cooldown.toNat)
        (ps.handlePortalMove start end_ board).1).cooldowns_ portal.id = some 0 := by
  obtain ⟨hc, hqueue, -⟩ := handlePortalMove_arms ps board start end_ portal hfind hocc
  have hskip := skip_foreign_tokens portal.id
    (List.replicate portal.properties.cooldown.toNat portal.id) ps.cooldown_queue_
    (ps.handlePortalMove start end_ board).1 hqueue hq
  have hown : ∀ j : Nat, (j : Int) ≤ portal.properties.cooldown →
      (updateCooldownsTimes (ps.cooldown_queue_.length + j)
        (ps.handlePortalMove start end_ board).1).cooldowns_ portal.id =
        some (portal.properties.cooldown - j) := by
    intro j hj
    obtain ⟨h1, h2⟩ := hskip ps.cooldown_queue_.length (le_refl _)
    rw [updateCooldownsTimes_add]
    refine (consume_own_tokens portal.id [] j portal.properties.cooldown.toNat
      portal.properties.cooldown _ ?_ (h2.trans hc) (by omega) (by omega)).2
    simpa using h1
  refine ⟨hc, hqueue, fun n hn => ((hskip n hn).2).trans hc, hown, ?_⟩
  have := hown portal.properties.cooldown.toNat (by omega)
  rw [this]
  congr 1
  omega

/-- C6 witness: portal "B" of `twoPortals` used on a fresh system (empty queue). -/
theorem cooldown_expires_after_pending_plus_length_witness :
    (updateCooldownsTimes 1 (twoPortals.handlePortalMove ⟨2, 2⟩ ⟨3, 3⟩ twoPawnsBoard).1).cooldowns_
      "B" = some 0 :=
  (cooldown_expires_after_pending_plus_length twoPortals twoPawnsBoard ⟨2, 2⟩ ⟨3, 3⟩
    ⟨"B", ⟨⟨2, 2⟩, ⟨3, 3⟩⟩, ⟨["white", "black"], 1⟩⟩
    (by decide!) (by decide!) (by decide) (by decide!)).2.2.2.2

/-! ## Portal validation (C7, C8, C9) -/

/-- What `validatePortalMove` tests: the occupant of `start` has exactly the given name and
colour, the pair matches a configured portal, the first such portal is not in cooldown and
allows the colour. -/
theorem validatePortalMove_eq_true_iff (ps : PortalSystem) (piece : String)
    (start end_ : Position) (w : Bool) (board : ChessBoard) :
    ps.validatePortalMove piece start end_ w board = true ↔
      (board.getSquare start).is_empty = false ∧ (board.getSquare start).piece = piece ∧
        (board.getSquare start).is_white = w ∧
        ∃ portal, ps.portals_.find? (fun q => q.matchesMove start end_) = some portal ∧
          ps.isPortalInCooldown start end_ = false ∧
          (if w then "white" else "black") ∈ portal.properties.allowed_colors := by
  unfold PortalSystem.validatePortalMove
  by_cases h1 : (board.getSquare start).is_empty = true
  · simp [h1]
  · by_cases h2 : (board.getSquare start).piece = piece
    · by_cases h3 : (board.getSquare start).is_white = w
      · cases hf : ps.portals_.find? (fun q => q.matchesMove start end_) with
        | none => simp [h1, h2, h3]
        | some portal =>
          by_cases h4 : ps.isPortalInCooldown start end_ = true
          · simp [h1, h2, h3, h4]
          · simp [h1, h2, h3, h4]
      · simp [h1, h2, h3]
    · simp [h1, h2]

/-- C7 (evaluation of the code): a white rook stored as "Rook" stands on the entry of a ready
portal open to white.  Asked with the name "rook", which the start check of `isValidMove`
accepts, `validatePortalMove` returns false because it compares the names exactly; asked with
"Rook" it returns true. -/
theorem portal_validation_is_case_sensitive :
    toLowerCase (capitalRookBoard.getSquare ⟨0, 0⟩).piece = toLowerCase "rook" ∧
    (capitalRookBoard.getSquare ⟨0, 0⟩).is_white = true ∧
    (singlePortal ⟨0, 0⟩ ⟨5, 5⟩ ["white"] 3).cooldowns_ "p1" = some 0 ∧
    (singlePortal ⟨0, 0⟩ ⟨5, 5⟩ ["white"] 3).validatePortalMove "rook" ⟨0, 0⟩ ⟨5, 5⟩ true
      capitalRookBoard = false ∧
    (singlePortal ⟨0, 0⟩ ⟨5, 5⟩ ["white"] 3).validatePortalMove "Rook" ⟨0, 0⟩ ⟨5, 5⟩ true
      capitalRookBoard = true ∧
    isValidMove "rook" ⟨0, 0⟩ ⟨5, 5⟩ true capitalRookBoard
      (singlePortal ⟨0, 0⟩ ⟨5, 5⟩ ["white"] 3) = false ∧
    isValidMove "Rook" ⟨0, 0⟩ ⟨5, 5⟩ true capitalRookBoard
      (singlePortal ⟨0, 0⟩ ⟨5, 5⟩ ["white"] 3) = true := by
  refine ⟨by decide!, by decide!, by decide!, by decide!, by decide!, by decide!, by decide!⟩

/-- C8 (counterexample): a portal of cooldown length 0 is usable again immediately after it
has been used. -/
theorem zero_cooldown_portal_stays_open :
    (((singlePortal ⟨0, 0⟩ ⟨5, 5⟩ ["white"] 0).handlePortalMove ⟨0, 0⟩ ⟨5, 5⟩
      rookBoard).1).validatePortalMove "rook" ⟨0, 0⟩ ⟨5, 5⟩ true rookBoard = true := by
  decide!

/-- C8 (amended): immediately after a portal of positive cooldown length has been used through
`handlePortalMove`, `validatePortalMove` rejects every move matching its entry and exit, for
every board, piece and colour. -/
theorem portal_blocked_right_after_use (ps : PortalSystem) (board : ChessBoard)
    (start end_ : Position) (portal : PortalConfig)
    (hfind : ps.portals_.find? (fun q => q.matchesMove start end_) = some portal)
    (hocc : (board.getSquare start).is_empty = false)
    (hK : 0 < portal.properties.cooldown) :
    ∀ (board' : ChessBoard) (piece : String) (color : Bool),
      (ps.handlePortalMove start end_ board).1.validatePortalMove piece start end_ color
        board' = false := by
  intro board' piece color
  obtain ⟨hc, -, hp⟩ := handlePortalMove_arms ps board start end_ portal hfind hocc
  have hcool : (ps.handlePortalMove start end_ board).1.isPortalInCooldown start end_ = true := by
    simp [PortalSystem.isPortalInCooldown, hp, hfind, hc, hK]
  simp [PortalSystem.validatePortalMove, hp, hfind, hcool]

/-- C8 witness: the portal of cooldown length 3 from (0,0) to (5,5) used by the rook, then
asked again for a rook standing on the entry. -/
theorem portal_blocked_right_after_use_witness :
    ((singlePortal ⟨0, 0⟩ ⟨5, 5⟩ ["white"] 3).handlePortalMove ⟨0, 0⟩ ⟨5, 5⟩
      rookBoard).1.validatePortalMove "rook" ⟨0, 0⟩ ⟨5, 5⟩ true rookBoard = false :=
  portal_blocked_right_after_use (singlePortal ⟨0, 0⟩ ⟨5, 5⟩ ["white"] 3) rookBoard ⟨0, 0⟩ ⟨5, 5⟩
    ⟨"p1", ⟨⟨0, 0⟩, ⟨5, 5⟩⟩, ⟨["white"], 3⟩⟩ (by decide!) (by decide!) (by decide)
    rookBoard "rook" true

/-- C9 (counterexample): for a king move of two files along its rank and for an en passant
capture, `isValidMove` does not return the portal verdict although the pair is a configured
portal. -/
theorem portal_verdict_overridden :
    (singlePortal ⟨4, 0⟩ ⟨6, 0⟩ ["white"] 2).isPortalMove ⟨4, 0⟩ ⟨6, 0⟩ = true ∧
    (singlePortal ⟨4, 0⟩ ⟨6, 0⟩ ["white"] 2).validatePortalMove "king" ⟨4, 0⟩ ⟨6, 0⟩ true
      loneKingBoard = true ∧
    isValidMove "king" ⟨4, 0⟩ ⟨6, 0⟩ true loneKingBoard
      (singlePortal ⟨4, 0⟩ ⟨6, 0⟩ ["white"] 2) = false ∧
    (singlePortal ⟨3, 4⟩ ⟨4, 5⟩ ["black"] 2).isPortalMove ⟨3, 4⟩ ⟨4, 5⟩ = true ∧
    (singlePortal ⟨3, 4⟩ ⟨4, 5⟩ ["black"] 2).validatePortalMove "pawn" ⟨3, 4⟩ ⟨4, 5⟩ true
      enPassantBoard = false ∧
    isValidMove "pawn" ⟨3, 4⟩ ⟨4, 5⟩ true enPassantBoard
      (singlePortal ⟨3, 4⟩ ⟨4, 5⟩ ["black"] 2) = true := by
  refine ⟨by decide!, by decide!, by decide!, by decide!, by decide!, by decide!⟩

/-- C9 (amended): when the start and end checks pass and the pair is a configured portal,
`isValidMove` returns the verdict of `validatePortalMove`, unless the move is taken by an
earlier branch: a king move of exactly two files along its rank, a valid en passant capture
of a pawn, or a pawn move ending on rank 7 (white) or rank 0 (black). -/
theorem portal_move_returns_portal_verdict (board : ChessBoard) (ps : PortalSystem)
    (piece : String) (start end_ : Position) (w : Bool)
    (hs : board.isInBounds start = true)
    (hocc : (board.getSquare start).is_empty = false)
    (hk : toLowerCase (board.getSquare start).piece = toLowerCase piece)
    (hc : (board.getSquare start).is_white = w)
    (he : board.isInBounds end_ = true)
    (hend : (board.getSquare end_).is_empty = true ∨ (board.getSquare end_).is_white ≠ w)
    (hportal : ps.isPortalMove start end_ = true)
    (hking : ¬(toLowerCase piece = "king" ∧ (end_.x - start.x).natAbs = 2 ∧ end_.y = start.y))
    (hpawn : toLowerCase piece = "pawn" →
      isEnPassantMove start end_ w board = false ∧
        ¬((w = true ∧ end_.y = 7) ∨ (w = false ∧ end_.y = 0))) :
    isValidMove piece start end_ w board ps =
      ps.validatePortalMove piece start end_ w board := by
  have hendb : (!(board.getSquare end_).is_empty && (board.getSquare end_).is_white == w)
      = false := by
    rcases hend with h | h
    · simp [h]
    · simp [h]
  unfold isValidMove
  simp only [hs, hocc, hk, hc, he, hendb, hportal, hking, Bool.not_true, Bool.false_eq_true,
    if_false, if_true, bne_self_eq_false, Bool.or_self]
  by_cases hp : toLowerCase piece = "pawn"
  · obtain ⟨h1, h2⟩ := hpawn hp
    simp only [hp, h1, h2, Bool.false_eq_true, and_false, if_false, true_and]
  · simp only [hp, false_and, if_false]

/-- C9 witness: the white rook of `rookBoard` on the portal from (0,0) to (5,5). -/
theorem portal_move_returns_portal_verdict_witness :
    isValidMove "rook" ⟨0, 0⟩ ⟨5, 5⟩ true rookBoard (singlePortal ⟨0, 0⟩ ⟨5, 5⟩ ["white"] 3) =
      (singlePortal ⟨0, 0⟩ ⟨5, 5⟩ ["white"] 3).validatePortalMove "rook" ⟨0, 0⟩ ⟨5, 5⟩ true
        rookBoard :=
  portal_move_returns_portal_verdict rookBoard (singlePortal ⟨0, 0⟩ ⟨5, 5⟩ ["white"] 3) "rook"
    ⟨0, 0⟩ ⟨5, 5⟩ true (by decide!) (by decide!) (by decide!) (by decide!) (by decide!)
    (by decide!) (by decide!) (by decide!) (by decide!)

/-! ## Undo (C10) -/

theorem placePiece_size (b : ChessBoard) (k : String) (c : Bool) (x y : Int) :
    (b.placePiece k c x y).size = b.size := by
  unfold ChessBoard.placePiece
  split <;> rfl

theorem placePiece_isInBounds (b : ChessBoard) (k : String) (c : Bool) (x y : Int)
    (p : Position) : (b.placePiece k c x y).isInBounds p = b.isInBounds p := by
  simp only [ChessBoard.isInBounds, placePiece_size]

theorem placePiece_getSquare (b : ChessBoard) (k : String) (c : Bool) (q p : Position)
    (hq : b.isInBounds q = true) :
    (b.placePiece k c q.x q.y).getSquare p = if p = q then ⟨k, c⟩ else b.getSquare p := by
  simp [ChessBoard.placePiece, ChessBoard.getSquare, hq]

/-- The board after relocating the occupant of `start` to `end_`, square by square. -/
theorem relocatePiece_getSquare (b : ChessBoard) (start end_ p : Position)
    (hs : b.isInBounds start = true) (he : b.isInBounds end_ = true) :
    (relocatePiece b start end_).getSquare p =
      if p = start then ⟨"", false⟩
      else if p = end_ then b.getSquare start else b.getSquare p := by
  unfold relocatePiece
  simp only
  rw [placePiece_getSquare _ _ _ start p (by rw [placePiece_isInBounds]; exact hs),
    placePiece_getSquare _ _ _ end_ p he]

/-- The board after `undoMove` of the record of the move `start -> end_`, square by square. -/
theorem undoMove_getSquare (b : ChessBoard) (ps : PortalSystem) (history : List Move)
    (start end_ p : Position)
    (hs : b.isInBounds start = true) (he : b.isInBounds end_ = true) :
    ((undoMove (addToMoveHistory ⟨relocatePiece b start end_, ps, history⟩
        (recordMove b start end_))).chess_board.getSquare p) =
      if p = end_ then
        (if (b.getSquare end_).piece ≠ "" then b.getSquare end_ else ⟨"", false⟩)
      else b.getSquare p := by
  have hs1 : (relocatePiece b start end_).isInBounds start = true := by
    unfold relocatePiece
    simp only [placePiece_isInBounds]
    exact hs
  have he1 : ∀ k c, ((relocatePiece b start end_).placePiece k c start.x start.y).isInBounds end_
      = true := by
    intro k c
    unfold relocatePiece
    simp only [placePiece_isInBounds]
    exact he
  simp only [undoMove, addToMoveHistory, recordMove]
  by_cases hcap : (b.getSquare end_).piece = ""
  · simp only [hcap, ne_eq, not_true_eq_false, if_false]
    rw [placePiece_getSquare _ _ _ end_ p (he1 _ _), placePiece_getSquare _ _ _ start p hs1,
      relocatePiece_getSquare b start end_ p hs he]
    by_cases h1 : p = end_
    · simp [h1]
    · by_cases h2 : p = start
      · simp [h1, h2]
      · simp [h1, h2]
  · simp only [hcap, ne_eq, not_false_eq_true, if_true]
    rw [placePiece_getSquare _ _ _ end_ p (he1 _ _), placePiece_getSquare _ _ _ start p hs1,
      relocatePiece_getSquare b start end_ p hs he]
    by_cases h1 : p = end_
    · simp [h1]
    · by_cases h2 : p = start
      · simp [h1, h2]
      · simp [h1, h2]

/-- C10: after a move `start -> end_` between squares of the board, applied by relocating the
occupant of `start` and recorded with the mover and the previous occupant of `end_`,
`undoMove` gives back a board that shows on every square the same kind and colour as before
the move.  The squares are equal as records when `end_` held a piece (capture), and when `end_`
was empty with the colour flag `false` that a cleared square carries. -/
theorem undo_restores_board (b : ChessBoard) (ps : PortalSystem) (history : List Move)
    (start end_ : Position)
    (hs : b.isInBounds start = true) (he : b.isInBounds end_ = true) :
    (∀ p : Position,
      ((undoMove (addToMoveHistory ⟨relocatePiece b start end_, ps, history⟩
        (recordMove b start end_))).chess_board.getSquare p).sameContent (b.getSquare p)) ∧
    ((b.getSquare end_).is_empty = false → ∀ p : Position,
      (undoMove (addToMoveHistory ⟨relocatePiece b start end_, ps, history⟩
        (recordMove b start end_))).chess_board.getSquare p = b.getSquare p) ∧
    ((b.getSquare end_).is_empty = true → (b.getSquare end_).is_white = false →
      ∀ p : Position,
        (undoMove (addToMoveHistory ⟨relocatePiece b start end_, ps, history⟩
          (recordMove b start end_))).chess_board.getSquare p = b.getSquare p) := by
  refine ⟨?_, ?_, ?_⟩
  · intro p
    rw [undoMove_getSquare b ps history start end_ p hs he]
    by_cases h1 : p = end_
    · subst h1
      by_cases hcap : (b.getSquare p).piece = ""
      · simp [hcap, Square.sameContent, Square.is_empty]
      · simp [hcap, Square.sameContent]
    · simp [h1, Square.sameContent]
  · intro hocc p
    rw [undoMove_getSquare b ps history start end_ p hs he]
    have hcap : (b.getSquare end_).piece ≠ "" := by
      simpa [Square.is_empty] using hocc
    by_cases h1 : p = end_
    · simp [h1, hcap]
    · simp [h1]
  · intro hemp hflag p
    rw [undoMove_getSquare b ps history start end_ p hs he]
    have hcap : (b.getSquare end_).piece = "" := by
      simpa [Square.is_empty] using hemp
    by_cases h1 : p = end_
    · subst h1
      simp only [hcap, ne_eq, not_true_eq_false, if_false, if_true]
      cases hsq : b.getSquare p with
      | mk k c =>
        rw [hsq] at hcap hflag
        simp only at hcap hflag
        rw [hcap, hflag]
    · simp [h1]

/-- C10 witness: on `mateBoard` the rook move (1,7) -> (1,0) to an empty square is undone;
both squares are as before. -/
theorem undo_restores_board_witness :
    (undoMove (addToMoveHistory ⟨relocatePiece mateBoard ⟨1, 7⟩ ⟨1, 0⟩, noPortals, []⟩
        (recordMove mateBoard ⟨1, 7⟩ ⟨1, 0⟩))).chess_board.getSquare ⟨1, 7⟩ =
      mateBoard.getSquare ⟨1, 7⟩ ∧
    (undoMove (addToMoveHistory ⟨relocatePiece mateBoard ⟨1, 7⟩ ⟨1, 0⟩, noPortals, []⟩
        (recordMove mateBoard ⟨1, 7⟩ ⟨1, 0⟩))).chess_board.getSquare ⟨1, 0⟩ =
      mateBoard.getSquare ⟨1, 0⟩ :=
  ⟨(undo_restores_board mateBoard noPortals [] ⟨1, 7⟩ ⟨1, 0⟩ (by decide) (by decide)).2.2
      (by decide!) (by decide!) ⟨1, 7⟩,
    (undo_restores_board mateBoard noPortals [] ⟨1, 7⟩ ⟨1, 0⟩ (by decide) (by decide)).2.2
      (by decide!) (by decide!) ⟨1, 0⟩⟩

/-! ## Reachable squares of the sliding pieces (C11) -/

/-- The list `getMoveEdges` depends on the piece name only through its lower-case form. -/
theorem getMoveEdges_congr_lower (p q : String) (pos : Position) (w : Bool)
    (board : ChessBoard) (h : toLowerCase p = toLowerCase q) :
    getMoveEdges p pos w board = getMoveEdges q pos w board := by
  simp only [getMoveEdges, h]

/-- Every square produced by the ray loops is on the board. -/
theorem isInBounds_of_mem_slideEdges (board : ChessBoard) (pos q : Position)
    (dirs : List (Int × Int)) (h : q ∈ slideEdges board pos dirs) :
    board.isInBounds q = true := by
  rw [mem_slideEdges] at h
  obtain ⟨_, _, _, _, _, hb, _⟩ := h
  exact hb

theorem isInBounds_of_mem_slider (board : ChessBoard) (kind : String) (pos q : Position)
    (w : Bool) (hkind : kind = "rook" ∨ kind = "bishop" ∨ kind = "queen")
    (h : q ∈ getMoveEdges kind pos w board) : board.isInBounds q = true := by
  rcases hkind with hk | hk | hk
  · rw [getMoveEdges_rook _ _ _ _ hk] at h
    exact isInBounds_of_mem_slideEdges _ _ _ _ h
  · rw [getMoveEdges_bishop _ _ _ _ hk] at h
    exact isInBounds_of_mem_slideEdges _ _ _ _ h
  · rw [getMoveEdges_queen _ _ _ _ hk] at h
    exact isInBounds_of_mem_slideEdges _ _ _ _ h

/-- C11 (counterexample): the white rook on (0,0) of `friendlyBlockBoard` is blocked by a
white pawn on (0,2), the first occupied square of its file; the list returned for the rook
holds (0,2) although the piece there is friendly (and holds nothing beyond it). -/
theorem slider_edges_hold_friendly_blocker :
    (friendlyBlockBoard.getSquare ⟨0, 1⟩).is_empty = true ∧
    (friendlyBlockBoard.getSquare ⟨0, 2⟩).is_empty = false ∧
    (friendlyBlockBoard.getSquare ⟨0, 2⟩).is_white = true ∧
    (⟨0, 2⟩ : Position) ∈ getMoveEdges "rook" ⟨0, 0⟩ true friendlyBlockBoard ∧
    (⟨0, 3⟩ : Position) ∉ getMoveEdges "rook" ⟨0, 0⟩ true friendlyBlockBoard := by
  refine ⟨by decide!, by decide!, by decide!, by decide!, by decide!⟩

/-- C11 (amended): for a rook, bishop or queen on a square of the board, every square of the
list returned by `getMoveEdges` is on the board, on a ray of the kind, and has only empty
squares strictly between it and the piece, so nothing beyond the first occupied square of a
ray is listed; and every such square is listed, in particular the first occupied square of a
ray, whether the piece on it is an enemy or a friend. -/
theorem slider_edges_stop_at_first_occupied (board : ChessBoard) (piece : String)
    (pos : Position) (w : Bool)
    (hkind : toLowerCase piece = "rook" ∨ toLowerCase piece = "bishop" ∨
      toLowerCase piece = "queen")
    (hpos : board.isInBounds pos = true) :
    (∀ q : Position, q ∈ getMoveEdges piece pos w board →
      board.isInBounds q = true ∧ onKindRay (toLowerCase piece) pos q ∧
        pathClear board pos q) ∧
    (∀ b : Position, board.isInBounds b = true → onKindRay (toLowerCase piece) pos b →
      pathClear board pos b → (board.getSquare b).is_empty = false →
      b ∈ getMoveEdges piece pos w board) := by
  have hlow : toLowerCase piece = toLowerCase (toLowerCase piece) := by
    rcases hkind with h | h | h <;> rw [h] <;> decide
  have hedges := getMoveEdges_congr_lower piece (toLowerCase piece) pos w board hlow
  rw [hedges]
  constructor
  · intro q hq
    have hb := isInBounds_of_mem_slider board _ pos q w hkind hq
    exact ⟨hb, (mem_getMoveEdges_slider board _ pos q w hkind hpos hb).1 hq⟩
  · intro b hb hray hclear _
    exact (mem_getMoveEdges_slider board _ pos b w hkind hpos hb).2 ⟨hray, hclear⟩

/-- C11 witness: the rook of `friendlyBlockBoard`; the friendly pawn's square (0,2) is
listed. -/
theorem slider_edges_stop_at_first_occupied_witness :
    (⟨0, 2⟩ : Position) ∈ getMoveEdges "rook" ⟨0, 0⟩ true friendlyBlockBoard :=
  (slider_edges_stop_at_first_occupied friendlyBlockBoard "rook" ⟨0, 0⟩ true (by decide)
    (by decide)).2 ⟨0, 2⟩ (by decide) (by decide) (by decide) (by decide!)

/-! ## Pawn double step (C12) -/

theorem getMoveEdges_pawn (piece : String) (pos : Position) (w : Bool) (board : ChessBoard)
    (h : toLowerCase piece = "pawn") :
    getMoveEdges piece pos w board = pawnEdges board pos w := by
  simp only [getMoveEdges, h, if_true]

/-- C12: for a pawn on a square of a board of size at least 4, the list returned by
`getMoveEdges` holds the square two ranks forward exactly when the pawn is on its home rank
(1 for white, 6 for black) and the squares one and two ranks forward are both empty. -/
theorem pawn_double_step_iff (board : ChessBoard) (piece : String) (pos : Position) (w : Bool)
    (hp : toLowerCase piece = "pawn")
    (hpos : board.isInBounds pos = true) (hN : 4 ≤ board.size) :
    (⟨pos.x, pos.y + 2 * (if w then 1 else -1)⟩ : Position) ∈ getMoveEdges piece pos w board ↔
      ((w = true ∧ pos.y = 1) ∨ (w = false ∧ pos.y = 6)) ∧
        (board.getSquare ⟨pos.x, pos.y + (if w then 1 else -1)⟩).is_empty = true ∧
        (board.getSquare ⟨pos.x, pos.y + 2 * (if w then 1 else -1)⟩).is_empty = true := by
  rw [getMoveEdges_pawn piece pos w board hp]
  rw [isInBounds_iff] at hpos
  obtain ⟨px, py⟩ := pos
  simp only at hpos
  cases w
  · simp only [pawnEdges, Bool.false_eq_true, if_false, Bool.false_and, Bool.not_false,
      Bool.true_and, Bool.or_eq_true, decide_eq_true_eq, false_or, Bool.and_eq_true,
      List.mem_append, List.mem_flatMap, List.mem_cons, List.mem_singleton, List.not_mem_nil,
      or_false, exists_eq_or_imp, exists_eq_left, false_and]
    by_cases hy : py = 6
    · subst hy
      have hb1 : board.isInBounds ⟨px, 5⟩ = true := by
        rw [isInBounds_iff]; simp only; omega
      have hb2 : board.isInBounds ⟨px, 4⟩ = true := by
        rw [isInBounds_iff]; simp only; omega
      by_cases h1 : (board.getSquare ⟨px, 5⟩).is_empty = true
      · by_cases h2 : (board.getSquare ⟨px, 4⟩).is_empty = true
        · simp [hb1, hb2, h1, h2]
        · simp [hb1, hb2, h1, h2]
      · simp [hb1, hb2, h1]
    · by_cases hc : (board.isInBounds ⟨px, py + -1⟩ = true ∧
          (board.getSquare ⟨px, py + -1⟩).is_empty = true)
      · simp [hc, hy]
      · simp [hc, hy]
  · simp only [pawnEdges, if_true, Bool.true_and, Bool.not_true, Bool.false_and,
      Bool.or_false, decide_eq_true_eq, Bool.and_eq_true,
      List.mem_append, List.mem_flatMap, List.mem_cons, List.mem_singleton, List.not_mem_nil,
      or_false, exists_eq_or_imp, exists_eq_left, true_and, false_and]
    by_cases hy : py = 1
    · subst hy
      have hb1 : board.isInBounds ⟨px, 2⟩ = true := by
        rw [isInBounds_iff]; simp only; omega
      have hb2 : board.isInBounds ⟨px, 3⟩ = true := by
        rw [isInBounds_iff]; simp only; omega
      by_cases h1 : (board.getSquare ⟨px, 2⟩).is_empty = true
      · by_cases h2 : (board.getSquare ⟨px, 3⟩).is_empty = true
        · simp [hb1, hb2, h1, h2]
        · simp [hb1, hb2, h1, h2]
      · simp [hb1, hb2, h1]
    · by_cases hc : (board.isInBounds ⟨px, py + 1⟩ = true ∧
          (board.getSquare ⟨px, py + 1⟩).is_empty = true)
      · simp [hc, hy]
      · simp [hc, hy]

/-- C12 witness: the white pawn of `pawnStartBoard` on its home rank at (2,1). -/
theorem pawn_double_step_iff_witness :
    (⟨2, 3⟩ : Position) ∈ getMoveEdges "pawn" ⟨2, 1⟩ true pawnStartBoard :=
  (pawn_double_step_iff pawnStartBoard "pawn" ⟨2, 1⟩ true (by decide) (by decide)
    (by decide)).mpr ⟨Or.inl ⟨rfl, rfl⟩, by decide!, by decide!⟩

/-! ## En passant (C13) -/

/-- A pawn's list never holds an empty square of another file. -/
theorem not_mem_pawnEdges_of_empty_other_file (board : ChessBoard) (pos e : Position)
    (w : Bool) (hempty : (board.getSquare e).is_empty = true) (hx : e.x ≠ pos.x) :
    e ∉ pawnEdges board pos w := by
  intro hmem
  unfold pawnEdges at hmem
  generalize (if w = true then (1 : Int) else -1) = f at hmem
  simp only [List.mem_append, List.mem_flatMap, List.mem_cons, List.mem_singleton,
    List.not_mem_nil, or_false, exists_eq_or_imp, exists_eq_left, List.mem_ite_nil_right,
    Bool.and_eq_true, Bool.not_eq_true', bne_iff_ne, ne_eq] at hmem
  rcases hmem with ⟨-, h | ⟨-, -, h⟩⟩ | ⟨-, ⟨hocc, -⟩, h⟩ | ⟨-, ⟨hocc, -⟩, h⟩
  · rw [h] at hx; exact hx rfl
  · rw [h] at hx; exact hx rfl
  · rw [← h, hempty] at hocc; exact Bool.noConfusion hocc
  · rw [← h, hempty] at hocc; exact Bool.noConfusion hocc

/-- On the fifth rank, towards an empty diagonally adjacent square of the sixth rank,
`isEnPassantMove` tests only the square beside the pawn. -/
theorem isEnPassantMove_eq_true_iff (board : ChessBoard) (start end_ : Position) (w : Bool)
    (hrank : start.y = if w then 4 else 3)
    (hdiag : (end_.x - start.x).natAbs = 1) (hrank6 : end_.y = if w then 5 else 2)
    (hempty : (board.getSquare end_).is_empty = true) :
    isEnPassantMove start end_ w board = true ↔
      (board.getSquare ⟨end_.x, start.y⟩).is_empty = false ∧
        toLowerCase (board.getSquare ⟨end_.x, start.y⟩).piece = "pawn" ∧
        (board.getSquare ⟨end_.x, start.y⟩).is_white ≠ w := by
  unfold isEnPassantMove
  cases w
  · simp only [Bool.false_eq_true, if_false] at hrank hrank6
    simp [hrank, hrank6, hdiag, hempty, and_assoc]
  · simp only [if_true] at hrank hrank6
    simp [hrank, hrank6, hdiag, hempty, and_assoc]

/-- C13: for a pawn on its fifth rank (4 for white, 3 for black) and an empty, diagonally
adjacent square of the sixth rank (5 for white, 2 for black) on the board that is not the exit
of a portal from the pawn's square, `isValidMove` holds exactly when the square on the pawn's
rank and the destination's file holds an enemy pawn.  With a white pawn on (3,4) and a black
pawn on (4,4) the move to (4,5) is legal; without the black pawn it is not. -/
theorem en_passant_iff_enemy_pawn_beside (board : ChessBoard) (ps : PortalSystem)
    (piece : String) (start end_ : Position) (w : Bool)
    (hp : toLowerCase piece = "pawn")
    (hs : board.isInBounds start = true)
    (hocc : (board.getSquare start).is_empty = false)
    (hk : toLowerCase (board.getSquare start).piece = toLowerCase piece)
    (hc : (board.getSquare start).is_white = w)
    (hrank : start.y = if w then 4 else 3)
    (he : board.isInBounds end_ = true)
    (hdiag : (end_.x - start.x).natAbs = 1) (hrank6 : end_.y = if w then 5 else 2)
    (hempty : (board.getSquare end_).is_empty = true)
    (hnp : ps.isPortalMove start end_ = false) :
    (isValidMove piece start end_ w board ps = true ↔
      (board.getSquare ⟨end_.x, start.y⟩).is_empty = false ∧
        toLowerCase (board.getSquare ⟨end_.x, start.y⟩).piece = "pawn" ∧
        (board.getSquare ⟨end_.x, start.y⟩).is_white ≠ w) ∧
    isValidMove "pawn" ⟨3, 4⟩ ⟨4, 5⟩ true enPassantBoard noPortals = true ∧
    isValidMove "pawn" ⟨3, 4⟩ ⟨4, 5⟩ true noEnPassantBoard noPortals = false := by
  refine ⟨?_, by decide!, by decide!⟩
  rw [← isEnPassantMove_eq_true_iff board start end_ w hrank hdiag hrank6 hempty]
  have hking : ¬(toLowerCase piece = "king" ∧ (end_.x - start.x).natAbs = 2 ∧
      end_.y = start.y) := by
    rw [hp]
    intro h
    exact absurd h.1 (by decide)
  have hprom : ¬((w = true ∧ end_.y = 7) ∨ (w = false ∧ end_.y = 0)) := by
    cases w <;> simp [hrank6]
  have hx : end_.x ≠ start.x := by
    intro h
    rw [h] at hdiag
    simp at hdiag
  have hnot : end_ ∉ getMoveEdges (toLowerCase piece) start w board := by
    rw [getMoveEdges_pawn _ start w board (by rw [hp]; decide)]
    exact not_mem_pawnEdges_of_empty_other_file board start end_ w hempty hx
  have hany : (getMoveEdges (toLowerCase piece) start w board).any
      (fun move => decide (move.x = end_.x) && decide (move.y = end_.y)) = false := by
    rw [← Bool.not_eq_true, any_matches_iff_mem]
    exact hnot
  unfold isValidMove
  simp only [hs, hocc, hk, hc, he, hempty, hnp, hking, hprom, hany, Bool.not_true,
    Bool.false_eq_true, if_false, bne_self_eq_false, Bool.or_self, Bool.false_and, and_false]
  by_cases hep : isEnPassantMove start end_ w board = true
  · simp [hep, hp]
  · simp [hep]

/-- C13 witness: the white pawn on (3,4) of `enPassantBoard` and the square (4,5). -/
theorem en_passant_iff_enemy_pawn_beside_witness :
    (enPassantBoard.getSquare ⟨4, 4⟩).is_empty = false ∧
      toLowerCase (enPassantBoard.getSquare ⟨4, 4⟩).piece = "pawn" ∧
      (enPassantBoard.getSquare ⟨4, 4⟩).is_white ≠ true :=
  (en_passant_iff_enemy_pawn_beside enPassantBoard noPortals "pawn" ⟨3, 4⟩ ⟨4, 5⟩ true
    (by decide) (by decide) (by decide!) (by decide!) (by decide!) (by decide) (by decide)
    (by decide) (by decide) (by decide!) (by decide!)).1.mp (by decide!)

/-! ## Castling (C14) -/

theorem castlingPath_kingside (board : ChessBoard) (y : Int) :
    castlingPathClear board y 7 1 8 (4 + 1) =
      ((board.getSquare ⟨5, y⟩).is_empty && (board.getSquare ⟨6, y⟩).is_empty) := by
  simp [castlingPathClear]

theorem castlingPath_queenside (board : ChessBoard) (y : Int) :
    castlingPathClear board y 0 (-1) 8 (4 + -1) =
      ((board.getSquare ⟨3, y⟩).is_empty && (board.getSquare ⟨2, y⟩).is_empty &&
        (board.getSquare ⟨1, y⟩).is_empty) := by
  simp [castlingPathClear, Bool.and_assoc]

/-- What `validateCastling` tests for a move of two files along the rank. -/
theorem validateCastling_eq_true_iff (board : ChessBoard) (start end_ : Position) (w : Bool)
    (hdx : (end_.x - start.x).natAbs = 2) :
    validateCastling start end_ w board = true ↔
      start = ⟨4, if w then 0 else 7⟩ ∧
        ((board.getSquare (castlingCorner start end_)).is_empty = false ∧
          toLowerCase (board.getSquare (castlingCorner start end_)).piece = "rook" ∧
          (board.getSquare (castlingCorner start end_)).is_white = w) ∧
        ∀ x : Int, min start.x (castlingCorner start end_).x < x →
          x < max start.x (castlingCorner start end_).x →
          (board.getSquare ⟨x, start.y⟩).is_empty = true := by
  obtain ⟨sx, sy⟩ := start
  simp only at hdx
  unfold validateCastling castlingCorner
  simp only [Position.mk.injEq]
  by_cases hhome : sx = 4 ∧ sy = (if w then 0 else 7)
  · obtain ⟨h4, hy⟩ := hhome
    subst h4
    have hcond : ¬((4 : Int) ≠ 4 ∨ sy ≠ (if w = true then 0 else 7)) := by
      intro h
      rcases h with h | h
      · exact h rfl
      · exact h hy
    rw [if_neg hcond]
    simp only [true_and, iff_true_intro hy]
    have hside : end_.x = 6 ∨ end_.x = 2 := by omega
    rcases hside with hx | hx
    · have hpath : (∀ x : Int, 4 < x → x < 7 →
          (board.getSquare ⟨x, sy⟩).is_empty = true) ↔
          ((board.getSquare ⟨5, sy⟩).is_empty = true ∧
            (board.getSquare ⟨6, sy⟩).is_empty = true) := by
        constructor
        · intro h
          exact ⟨h 5 (by decide) (by decide), h 6 (by decide) (by decide)⟩
        · intro h x h1 h2
          have : x = 5 ∨ x = 6 := by omega
          rcases this with rfl | rfl
          · exact h.1
          · exact h.2
      have hmin : min (4 : Int) 7 = 4 := by decide
      have hmax : max (4 : Int) 7 = 7 := by decide
      simp only [hx, gt_iff_lt, show (4 : Int) < 6 by decide, decide_True, if_true, hmin, hmax,
        hpath, castlingPath_kingside]
      by_cases h1 : (board.getSquare ⟨7, sy⟩).is_empty = true
      · simp [h1]
      · by_cases h2 : toLowerCase (board.getSquare ⟨7, sy⟩).piece = "rook"
        · by_cases h3 : (board.getSquare ⟨7, sy⟩).is_white = w
          · simp [h1, h2, h3]
          · simp [h1, h2, h3]
        · simp [h1, h2]
    · have hpath : (∀ x : Int, 0 < x → x < 4 →
          (board.getSquare ⟨x, sy⟩).is_empty = true) ↔
          ((board.getSquare ⟨3, sy⟩).is_empty = true ∧
            (board.getSquare ⟨2, sy⟩).is_empty = true ∧
            (board.getSquare ⟨1, sy⟩).is_empty = true) := by
        constructor
        · intro h
          exact ⟨h 3 (by decide) (by decide), h 2 (by decide) (by decide),
            h 1 (by decide) (by decide)⟩
        · intro h x h1 h2
          have : x = 3 ∨ x = 2 ∨ x = 1 := by omega
          rcases this with rfl | rfl | rfl
          · exact h.1
          · exact h.2.1
          · exact h.2.2
      have hmin : min (4 : Int) 0 = 0 := by decide
      have hmax : max (4 : Int) 0 = 4 := by decide
      simp only [hx, gt_iff_lt, show ¬((2 : Int) > 4) by decide, decide_False,
        Bool.false_eq_true, if_false, hmin, hmax, hpath, castlingPath_queenside]
      by_cases h1 : (board.getSquare ⟨0, sy⟩).is_empty = true
      · simp [h1]
      · by_cases h2 : toLowerCase (board.getSquare ⟨0, sy⟩).piece = "rook"
        · by_cases h3 : (board.getSquare ⟨0, sy⟩).is_white = w
          · simp [h1, h2, h3, and_assoc]
          · simp [h1, h2, h3]
        · simp [h1, h2]
  · have hne : sx ≠ 4 ∨ sy ≠ (if w = true then 0 else 7) := by
      by_cases h : sx = 4
      · exact Or.inr (fun h' => hhome ⟨h, h'⟩)
      · exact Or.inl h
    rw [if_pos hne]
    simp only [Bool.false_eq_true, false_iff, not_and]
    intro h1
    exact absurd h1 hhome

/-- C14: on an 8x8 board, for the king of the colour on `start` and a square `end_` of the same
rank exactly two files away that holds no friendly piece, `isValidMove` holds exactly when
`start` is the king's home square ((4,0) for white, (4,7) for black), the corner of the rank
on the side of `end_` holds a rook of the colour, and every square strictly between king and
rook is empty; neither the portal system nor any other square of the board matters. -/
theorem castling_iff_home_rook_clear (board : ChessBoard) (ps : PortalSystem)
    (piece : String) (start end_ : Position) (w : Bool)
    (h8 : board.size = 8)
    (hp : toLowerCase piece = "king")
    (hs : board.isInBounds start = true)
    (hocc : (board.getSquare start).is_empty = false)
    (hk : toLowerCase (board.getSquare start).piece = toLowerCase piece)
    (hc : (board.getSquare start).is_white = w)
    (hrow : end_.y = start.y) (hdx : (end_.x - start.x).natAbs = 2)
    (hend : (board.getSquare end_).is_empty = true ∨ (board.getSquare end_).is_white ≠ w) :
    isValidMove piece start end_ w board ps = true ↔
      start = ⟨4, if w then 0 else 7⟩ ∧
        ((board.getSquare (castlingCorner start end_)).is_empty = false ∧
          toLowerCase (board.getSquare (castlingCorner start end_)).piece = "rook" ∧
          (board.getSquare (castlingCorner start end_)).is_white = w) ∧
        ∀ x : Int, min start.x (castlingCorner start end_).x < x →
          x < max start.x (castlingCorner start end_).x →
          (board.getSquare ⟨x, start.y⟩).is_empty = true := by
  rw [← validateCastling_eq_true_iff board start end_ w hdx]
  have hendb : (!(board.getSquare end_).is_empty && (board.getSquare end_).is_white == w)
      = false := by
    rcases hend with h | h
    · simp [h]
    · simp [h]
  by_cases he : board.isInBounds end_ = true
  · unfold isValidMove
    simp only [hs, hocc, hk, hc, he, hendb, hp, hrow, hdx, Bool.not_true, Bool.false_eq_true,
      if_false, if_true, bne_self_eq_false, Bool.or_self, and_self]
  · have hfalse : isValidMove piece start end_ w board ps = false := by
      unfold isValidMove
      simp [hs, hocc, hk, hc, he]
    rw [hfalse]
    simp only [Bool.false_eq_true, false_iff]
    intro hcast
    have hhome := ((validateCastling_eq_true_iff board start end_ w hdx).1 hcast).1
    apply he
    rw [isInBounds_iff] at hs ⊢
    rw [hhome] at hs hdx hrow
    simp only at hs hdx hrow
    rw [h8] at hs ⊢
    omega

/-- C14 witness: on `castlingBoard` the white king castles to (6,0); the rook on (7,0) is in
place and (5,0), (6,0) are empty. -/
theorem castling_iff_home_rook_clear_witness :
    (⟨4, 0⟩ : Position) = ⟨4, if true then 0 else 7⟩ ∧
      ((castlingBoard.getSquare (castlingCorner ⟨4, 0⟩ ⟨6, 0⟩)).is_empty = false ∧
        toLowerCase (castlingBoard.getSquare (castlingCorner ⟨4, 0⟩ ⟨6, 0⟩)).piece = "rook" ∧
        (castlingBoard.getSquare (castlingCorner ⟨4, 0⟩ ⟨6, 0⟩)).is_white = true) ∧
      ∀ x : Int, min (4 : Int) (castlingCorner ⟨4, 0⟩ ⟨6, 0⟩).x < x →
        x < max (4 : Int) (castlingCorner ⟨4, 0⟩ ⟨6, 0⟩).x →
        (castlingBoard.getSquare ⟨x, 0⟩).is_empty = true :=
  (castling_iff_home_rook_clear castlingBoard noPortals "king" ⟨4, 0⟩ ⟨6, 0⟩ true
    (by decide) (by decide) (by decide) (by decide!) (by decide!) (by decide!) (by decide)
    (by decide) (by decide!)).mp (by decide!)

/-! ## One cooldown tick (C15) -/

/-- C15: one call of `updateCooldowns` changes nothing when the queue is empty; otherwise it
removes exactly the front token, keeps the configured portals, leaves the counter of every
other id unchanged, and lowers the counter of the front token's id by exactly 1 when that
counter is positive and leaves it unchanged otherwise. -/
theorem updateCooldowns_touches_front_owner_only (ps : PortalSystem) :
    (ps.cooldown_queue_ = [] → ps.updateCooldowns = ps) ∧
    (∀ (t : String) (rest : List String), ps.cooldown_queue_ = t :: rest →
      ps.updateCooldowns.cooldown_queue_ = rest ∧
      ps.updateCooldowns.portals_ = ps.portals_ ∧
      (∀ id : String, id ≠ t → ps.updateCooldowns.cooldowns_ id = ps.cooldowns_ id) ∧
      (∀ c : Int, ps.cooldowns_ t = some c → 0 < c →
        ps.updateCooldowns.cooldowns_ t = some (c - 1)) ∧
      (∀ c : Int, ps.cooldowns_ t = some c → c ≤ 0 →
        ps.updateCooldowns.cooldowns_ t = some c) ∧
      (ps.cooldowns_ t = none → ps.updateCooldowns.cooldowns_ t = none)) := by
  constructor
  · intro hq
    simp [PortalSystem.updateCooldowns, hq]
  · intro t rest hq
    refine ⟨?_, ?_, ?_, ?_, ?_, ?_⟩
    · cases hc : ps.cooldowns_ t with
      | none => simp [PortalSystem.updateCooldowns, hq, hc]
      | some c =>
        by_cases hpos : c > 0
        · simp [PortalSystem.updateCooldowns, hq, hc, hpos]
        · simp [PortalSystem.updateCooldowns, hq, hc, hpos]
    · cases hc : ps.cooldowns_ t with
      | none => simp [PortalSystem.updateCooldowns, hq, hc]
      | some c =>
        by_cases hpos : c > 0
        · simp [PortalSystem.updateCooldowns, hq, hc, hpos]
        · simp [PortalSystem.updateCooldowns, hq, hc, hpos]
    · intro id hne
      exact (updateCooldowns_other ps t id rest hq hne).2
    · intro c hc hpos
      exact (updateCooldowns_own ps t rest c hq hc hpos).2
    · intro c hc hle
      have hpos : ¬c > 0 := by omega
      simp [PortalSystem.updateCooldowns, hq, hc, hpos]
    · intro hc
      simp [PortalSystem.updateCooldowns, hq, hc]

/-! ## Counter invariant (C16) -/

/-- The effect of `handlePortalMove` on the counters: either nothing changes, or the counter of
the first matching portal is set to its cooldown length. -/
theorem handlePortalMove_cooldowns (ps : PortalSystem) (start end_ : Position)
    (board : ChessBoard) :
    (ps.handlePortalMove start end_ board).1.portals_ = ps.portals_ ∧
    ((ps.handlePortalMove start end_ board).1.cooldowns_ = ps.cooldowns_ ∨
      ∃ portal ∈ ps.portals_, ∀ id : String,
        (ps.handlePortalMove start end_ board).1.cooldowns_ id =
          if id = portal.id then some portal.properties.cooldown else ps.cooldowns_ id) := by
  unfold PortalSystem.handlePortalMove
  cases hf : ps.portals_.find? (fun q => q.matchesMove start end_) with
  | none => exact ⟨rfl, Or.inl rfl⟩
  | some portal =>
    cases hocc : (board.getSquare start).is_empty with
    | true => simp [hocc]
    | false =>
      exact ⟨by simp [hocc],
        Or.inr ⟨portal, List.mem_of_find?_eq_some hf, fun id => by simp [hocc]⟩⟩

/-- The effect of `updateCooldowns` on the counters: a counter either stays or goes from a
positive value to one less. -/
theorem updateCooldowns_cooldowns (ps : PortalSystem) (id : String) :
    ps.updateCooldowns.portals_ = ps.portals_ ∧
    (ps.updateCooldowns.cooldowns_ id = ps.cooldowns_ id ∨
      ∃ c : Int, 0 < c ∧ ps.cooldowns_ id = some c ∧
        ps.updateCooldowns.cooldowns_ id = some (c - 1)) := by
  cases hq : ps.cooldown_queue_ with
  | nil => simp [PortalSystem.updateCooldowns, hq]
  | cons t rest =>
    cases hc : ps.cooldowns_ t with
    | none => simp [PortalSystem.updateCooldowns, hq, hc]
    | some c =>
      by_cases hpos : c > 0
      · by_cases hid : id = t
        · subst hid
          refine ⟨by simp [PortalSystem.updateCooldowns, hq, hc, hpos], Or.inr ⟨c, hpos, hc, ?_⟩⟩
          simp [PortalSystem.updateCooldowns, hq, hc, hpos]
        · simp [PortalSystem.updateCooldowns, hq, hc, hpos, hid]
      · simp [PortalSystem.updateCooldowns, hq, hc, hpos]

theorem counterInv_construct (portals : List PortalConfig)
    (hK : ∀ p ∈ portals, 0 ≤ p.properties.cooldown) :
    CounterInv portals (PortalSystem.construct portals) := by
  refine ⟨rfl, ?_, ?_⟩
  · intro id c hc
    simp only [PortalSystem.construct] at hc
    split at hc
    · cases hc
      exact le_refl 0
    · cases hc
  · intro _ p hp c hc
    simp only [PortalSystem.construct] at hc
    split at hc
    · cases hc
      exact hK p hp
    · cases hc

theorem counterInv_updateCooldowns (portals : List PortalConfig) (ps : PortalSystem)
    (h : CounterInv portals ps) : CounterInv portals ps.updateCooldowns := by
  obtain ⟨hp, hnn, hub⟩ := h
  refine ⟨(updateCooldowns_cooldowns ps "").1.trans hp, ?_, ?_⟩
  · intro id c hc
    rcases (updateCooldowns_cooldowns ps id).2 with he | ⟨c0, hpos, _, hnew⟩
    · rw [he] at hc
      exact hnn id c hc
    · rw [hnew] at hc
      cases hc
      omega
  · intro hnd p hpm c hc
    rcases (updateCooldowns_cooldowns ps p.id).2 with he | ⟨c0, hpos, hold, hnew⟩
    · rw [he] at hc
      exact hub hnd p hpm c hc
    · rw [hnew] at hc
      cases hc
      have := hub hnd p hpm c0 hold
      omega

theorem counterInv_handlePortalMove (portals : List PortalConfig) (ps : PortalSystem)
    (hK : ∀ p ∈ portals, 0 ≤ p.properties.cooldown)
    (start end_ : Position) (board : ChessBoard) (h : CounterInv portals ps) :
    CounterInv portals (ps.handlePortalMove start end_ board).1 := by
  obtain ⟨hp, hnn, hub⟩ := h
  obtain ⟨hports, hcases⟩ := handlePortalMove_cooldowns ps start end_ board
  refine ⟨hports.trans hp, ?_, ?_⟩
  · intro id c hc
    rcases hcases with he | ⟨portal, hmem, hnew⟩
    · rw [he] at hc
      exact hnn id c hc
    · rw [hnew id] at hc
      split at hc
      · cases hc
        exact hK portal (hp ▸ hmem)
      · exact hnn id c hc
  · intro hnd p hpm c hc
    rcases hcases with he | ⟨portal, hmem, hnew⟩
    · rw [he] at hc
      exact hub hnd p hpm c hc
    · rw [hnew p.id] at hc
      split at hc
      · rename_i hid
        cases hc
        have : p = portal := List.inj_on_of_nodup_map hnd hpm (hp ▸ hmem) hid
        rw [this]
      · exact hub hnd p hpm c hc

theorem counterInv_runOps (portals : List PortalConfig)
    (hK : ∀ p ∈ portals, 0 ≤ p.properties.cooldown) (ops : List PortalOp) :
    ∀ ps : PortalSystem, CounterInv portals ps → CounterInv portals (ps.runOps ops) := by
  induction ops with
  | nil => intro ps h; exact h
  | cons op ops ih =>
    intro ps h
    simp only [PortalSystem.runOps, List.foldl_cons]
    apply ih
    cases op with
    | use start end_ board => exact counterInv_handlePortalMove portals ps hK start end_ board h
    | tick => exact counterInv_updateCooldowns portals ps h

/-- C16: starting from the constructed portal system with non-negative cooldown lengths, after
every finite sequence of `handlePortalMove` and `updateCooldowns` calls every counter is
non-negative; `handlePortalMove` (entry occupied) sets the counter of the portal it uses to
exactly that portal's cooldown length; and, portal ids being unique, `handlePortalMove` never
lowers a counter, so only `updateCooldowns` does. -/
theorem counters_stay_non_negative (portals : List PortalConfig)
    (hK : ∀ p ∈ portals, 0 ≤ p.properties.cooldown) :
    (∀ (ops : List PortalOp) (id : String) (c : Int),
      ((PortalSystem.construct portals).runOps ops).cooldowns_ id = some c → 0 ≤ c) ∧
    (∀ (ops : List PortalOp) (start end_ : Position) (board : ChessBoard)
      (portal : PortalConfig),
      ((PortalSystem.construct portals).runOps ops).portals_.find?
          (fun q => q.matchesMove start end_) = some portal →
      (board.getSquare start).is_empty = false →
      ((((PortalSystem.construct portals).runOps ops).handlePortalMove start end_
          board).1).cooldowns_ portal.id = some portal.properties.cooldown) ∧
    ((portals.map fun p => p.id).Nodup →
      ∀ (ops : List PortalOp) (start end_ : Position) (board : ChessBoard) (id : String)
        (c : Int),
        ((PortalSystem.construct portals).runOps ops).cooldowns_ id = some c →
        ∃ c' : Int,
          ((((PortalSystem.construct portals).runOps ops).handlePortalMove start end_
            board).1).cooldowns_ id = some c' ∧ c ≤ c') := by
  have hinv := fun ops =>
    counterInv_runOps portals hK ops _ (counterInv_construct portals hK)
  refine ⟨?_, ?_, ?_⟩
  · intro ops id c hc
    exact (hinv ops).2.1 id c hc
  · intro ops start end_ board portal hfind hocc
    exact (handlePortalMove_arms _ board start end_ portal hfind hocc).1
  · intro hnd ops start end_ board id c hc
    obtain ⟨hp, -, hub⟩ := hinv ops
    rcases (handlePortalMove_cooldowns ((PortalSystem.construct portals).runOps ops)
      start end_ board).2 with he | ⟨portal, hmem, hnew⟩
    · exact ⟨c, by rw [he]; exact hc, le_refl c⟩
    · by_cases hid : id = portal.id
      · refine ⟨portal.properties.cooldown, by rw [hnew id]; simp [hid], ?_⟩
        rw [hid] at hc
        exact hub hnd portal (hp ▸ hmem) c hc
      · exact ⟨c, by rw [hnew id]; simp [hid, hc], le_refl c⟩

/-- C16 witness: the two portals of `twoPortals`; after one tick portal "A" is used. -/
theorem counters_stay_non_negative_witness :
    ((((PortalSystem.construct twoPortalConfigs).runOps [PortalOp.tick]).handlePortalMove
      ⟨0, 0⟩ ⟨1, 1⟩ twoPawnsBoard).1).cooldowns_ "A" = some 2 :=
  (counters_stay_non_negative twoPortalConfigs (by decide)).2.1 [PortalOp.tick] ⟨0, 0⟩ ⟨1, 1⟩
    twoPawnsBoard ⟨"A", ⟨⟨0, 0⟩, ⟨1, 1⟩⟩, ⟨["white", "black"], 2⟩⟩ (by decide!) (by decide!)

/-! ## Undo and the history (C17, C18) -/

/-- C17: with a non-empty history `undoMove` removes exactly the most recent record, keeping
the rest in order, and leaves the portal system in the state of one `updateCooldowns` call on
the state before the undo.  Counters are not rolled back: after a pawn went through portal "A"
(counter 0 before the move, 2 after it), undoing the move leaves the counter at 1. -/
theorem undo_pops_record_and_ticks_cooldowns :
    (∀ (g : GameState) (m : Move) (rest : List Move), g.move_history = m :: rest →
      (undoMove g).move_history = rest ∧
        (undoMove g).portal_system = g.portal_system.updateCooldowns) ∧
    twoPortals.cooldowns_ "A" = some 0 ∧
    afterPortalAGame.portal_system.cooldowns_ "A" = some 2 ∧
    (undoMove afterPortalAGame).portal_system.cooldowns_ "A" = some 1 ∧
    (undoMove afterPortalAGame).portal_system.cooldown_queue_ = ["A"] ∧
    (undoMove afterPortalAGame).move_history = [] := by
  refine ⟨?_, by decide!, by decide!, by decide!, by decide!, by decide!⟩
  intro g m rest h
  simp [undoMove, h]

/-- C18: with an empty history `undoMove` returns the state unchanged: the board, the history,
the portal counters and the token queue are those of before the call. -/
theorem undo_on_empty_history_changes_nothing (g : GameState) (h : g.move_history = []) :
    undoMove g = g := by
  simp [undoMove, h]

/-- C18 witness: `mateBoard` with no portals and an empty history. -/
theorem undo_on_empty_history_changes_nothing_witness :
    undoMove ⟨mateBoard, noPortals, []⟩ = ⟨mateBoard, noPortals, []⟩ :=
  undo_on_empty_history_changes_nothing ⟨mateBoard, noPortals, []⟩ rfl

/-! ## Kings give no check (C20) -/

/-- C20: when every opposing piece on the board is of a kind other than queen, rook, bishop,
knight and pawn, `isInCheck` is false, for every portal system.  With the two kings next to
each other the black king could step onto the white king's square, yet white is not in
check. -/
theorem no_check_without_checking_kinds (board : ChessBoard) (ps : PortalSystem) (c : Bool)
    (h : ∀ s : Position, board.isInBounds s = true → (board.getSquare s).is_empty = false →
      (board.getSquare s).is_white ≠ c →
      toLowerCase (board.getSquare s).piece ∉ threatening_pieces) :
    isInCheck board ps c = false ∧
    isValidMove "king" ⟨1, 1⟩ ⟨0, 0⟩ false adjacentKingsBoard noPortals = true ∧
    isInCheck adjacentKingsBoard noPortals true = false := by
  refine ⟨?_, by decide!, by decide!⟩
  unfold isInCheck
  cases hk : findKing board c with
  | none => rfl
  | some k =>
    simp only [List.any_eq_false, mem_scanPositions]
    intro s hs
    by_cases hocc : (board.getSquare s).is_empty = false
    · by_cases hcol : (board.getSquare s).is_white = c
      · simp [hcol]
      · have := h s hs hocc hcol
        simp [this]
    · simp at hocc
      simp [hocc]

/-- C20 witness: on `adjacentKingsBoard` the only black piece is a king. -/
theorem no_check_without_checking_kinds_witness :
    isInCheck adjacentKingsBoard (singlePortal ⟨1, 1⟩ ⟨0, 0⟩ ["black"] 0) true = false :=
  (no_check_without_checking_kinds adjacentKingsBoard (singlePortal ⟨1, 1⟩ ⟨0, 0⟩ ["black"] 0)
    true (fun s hs =>
      (by decide! : ∀ s ∈ scanPositions adjacentKingsBoard,
        (adjacentKingsBoard.getSquare s).is_empty = false →
        (adjacentKingsBoard.getSquare s).is_white ≠ true →
        toLowerCase (adjacentKingsBoard.getSquare s).piece ∉ threatening_pieces)
        s ((mem_scanPositions _ _).2 hs))).1

/-! ## Teleporter search (C19) -/

theorem getMoveEdges_teleporter (pos : Position) (w : Bool) (board : ChessBoard) :
    getMoveEdges "teleporter" pos w board = [] := by
  have hl : toLowerCase "teleporter" = "teleporter" := by decide
  simp only [getMoveEdges, hl]
  rfl

/-- What the search computes for a teleporter: since `getMoveEdges` has no branch for the kind,
the only edge ever followed is a portal from the start square directly to `end_`. -/
theorem teleporter_search_is_one_portal (board : ChessBoard) (ps : PortalSystem)
    (start end_ : Position) (w : Bool)
    (hs : board.isInBounds start = true) (he : board.isInBounds end_ = true)
    (hend : (board.getSquare end_).is_empty = true ∨ (board.getSquare end_).is_white ≠ w) :
    bfsValidateMove "teleporter" start end_ w board ps =
      some (decide (start = end_) || ps.isPortalMove start end_) := by
  have hendb : (!(board.getSquare end_).is_empty && (board.getSquare end_).is_white == w)
      = false := by
    rcases hend with h | h
    · simp [h]
    · simp [h]
  have hfuel : ∃ k : Nat, board.getBoardSize.toNat * board.getBoardSize.toNat + 1 = k + 2 := by
    have h1 : 1 ≤ board.getBoardSize.toNat := by
      rw [isInBounds_iff] at hs
      simp only [ChessBoard.getBoardSize]
      omega
    have h2 : 1 ≤ board.getBoardSize.toNat * board.getBoardSize.toNat := Nat.mul_pos h1 h1
    exact ⟨board.getBoardSize.toNat * board.getBoardSize.toNat - 1, by omega⟩
  obtain ⟨k, hk⟩ := hfuel
  unfold bfsValidateMove
  rw [hk]
  simp only [hs, he, hendb, Bool.not_true, Bool.or_self, Bool.false_eq_true, if_false]
  have hsame : (start.x = end_.x ∧ start.y = end_.y) ↔ start = end_ := by
    obtain ⟨sx, sy⟩ := start
    obtain ⟨ex, ey⟩ := end_
    simp
  by_cases heq : start = end_
  · subst heq
    simp [bfsLoop]
  · have hne : ¬(start.x = end_.x ∧ start.y = end_.y) := fun h => heq (hsame.1 h)
    have hne' : ¬(end_ = start) := fun h => heq h.symm
    by_cases hp : ps.isPortalMove start end_ = true
    · simp [bfsLoop, bfsPushPortal, bfsPushEdges, getMoveEdges_teleporter, hne, heq, hne', hp, he]
    · simp [bfsLoop, bfsPushPortal, bfsPushEdges, getMoveEdges_teleporter, hne, heq, hp]

/-- C19 (evaluation of the code): with the portals (0,0) -> (3,3) and (3,3) -> (6,6) the
teleporter on (0,0) reaches (3,3), and (6,6) is reached from (3,3), but the search from (0,0)
to (6,6) through both portals returns false. -/
theorem teleporter_search_misses_portal_chain :
    chainPortals.isPortalMove ⟨0, 0⟩ ⟨3, 3⟩ = true ∧
    chainPortals.isPortalMove ⟨3, 3⟩ ⟨6, 6⟩ = true ∧
    bfsValidateMove "teleporter" ⟨0, 0⟩ ⟨3, 3⟩ true teleporterBoard chainPortals = some true ∧
    bfsValidateMove "teleporter" ⟨3, 3⟩ ⟨6, 6⟩ true teleporterBoard chainPortals = some true ∧
    bfsValidateMove "teleporter" ⟨0, 0⟩ ⟨6, 6⟩ true teleporterBoard chainPortals =
      some false := by
  refine ⟨by decide!, by decide!, by decide!, by decide!, by decide!⟩

/-! ## Missing king (C21) -/

/-- C21: on a board without a king of the colour `isInCheck` returns false, and so does
`isCheckmate`, for every portal system. -/
theorem no_king_no_check (board : ChessBoard) (ps : PortalSystem) (c : Bool)
    (h : ∀ s : Position, board.isInBounds s = true →
      ¬(toLowerCase (board.getSquare s).piece = "king" ∧ (board.getSquare s).is_white = c)) :
    isInCheck board ps c = false ∧ isCheckmate board ps c = false := by
  have hnone : findKing board c = none := by
    unfold findKing
    rw [List.find?_eq_none]
    intro s hs
    rw [mem_scanPositions] at hs
    have := h s hs
    simpa using this
  have hchk : isInCheck board ps c = false := by
    unfold isInCheck
    rw [hnone]
  exact ⟨hchk, by simp [isCheckmate, hchk]⟩

/-- C21 witness: `rookBoard` holds a white rook only, so no black (and no white) king. -/
theorem no_king_no_check_witness :
    isInCheck rookBoard noPortals false = false ∧ isCheckmate rookBoard noPortals false = false :=
  no_king_no_check rookBoard noPortals false (fun s hs =>
    (by decide! : ∀ s ∈ scanPositions rookBoard,
      ¬(toLowerCase (rookBoard.getSquare s).piece = "king" ∧
        (rookBoard.getSquare s).is_white = false)) s ((mem_scanPositions _ _).2 hs))

/-! ## Start and end checks (C22) -/

/-- C22: `isValidMove` returns false when `start` is off the board, empty, or holds a piece
whose lower-cased kind or whose colour differs from the stated one, and when `end_` is off the
board or holds a piece of the mover's colour; this is decided before any kind of move is
looked at, for every piece name and portal system.  In particular a move from a square to
itself is never valid. -/
theorem isValidMove_rejects_bad_start_or_end :
    (∀ (piece : String) (start end_ : Position) (w : Bool) (board : ChessBoard)
      (ps : PortalSystem),
      (board.isInBounds start = false ∨ (board.getSquare start).is_empty = true ∨
        toLowerCase (board.getSquare start).piece ≠ toLowerCase piece ∨
        (board.getSquare start).is_white ≠ w ∨ board.isInBounds end_ = false ∨
        ((board.getSquare end_).is_empty = false ∧ (board.getSquare end_).is_white = w)) →
      isValidMove piece start end_ w board ps = false) ∧
    (∀ (piece : String) (start : Position) (w : Bool) (board : ChessBoard)
      (ps : PortalSystem), isValidMove piece start start w board ps = false) := by
  have hmain : ∀ (piece : String) (start end_ : Position) (w : Bool) (board : ChessBoard)
      (ps : PortalSystem),
      (board.isInBounds start = false ∨ (board.getSquare start).is_empty = true ∨
        toLowerCase (board.getSquare start).piece ≠ toLowerCase piece ∨
        (board.getSquare start).is_white ≠ w ∨ board.isInBounds end_ = false ∨
        ((board.getSquare end_).is_empty = false ∧ (board.getSquare end_).is_white = w)) →
      isValidMove piece start end_ w board ps = false := by
    intro piece start end_ w board ps h
    unfold isValidMove
    by_cases h1 : board.isInBounds start = true
    · by_cases h2 : (board.getSquare start).is_empty = true
      · simp [h1, h2]
      · by_cases h3 : toLowerCase (board.getSquare start).piece = toLowerCase piece
        · by_cases h4 : (board.getSquare start).is_white = w
          · by_cases h5 : board.isInBounds end_ = true
            · rcases h with h | h | h | h | h | h
              · rw [h] at h1; exact absurd h1 (by decide)
              · exact absurd h h2
              · exact absurd h3 h
              · exact absurd h4 h
              · rw [h] at h5; exact absurd h5 (by decide)
              · simp [h1, h2, h3, h4, h5, h.1, h.2]
            · simp [h1, h2, h3, h4, h5]
          · simp [h1, h2, h3, h4]
        · simp [h1, h2, h3]
    · simp [h1]
  refine ⟨hmain, ?_⟩
  intro piece start w board ps
  by_cases h2 : (board.getSquare start).is_empty = true
  · exact hmain piece start start w board ps (Or.inr (Or.inl h2))
  · by_cases h4 : (board.getSquare start).is_white = w
    · exact hmain piece start start w board ps
        (Or.inr (Or.inr (Or.inr (Or.inr (Or.inr ⟨by simpa using h2, h4⟩)))))
    · exact hmain piece start start w board ps (Or.inr (Or.inr (Or.inr (Or.inl h4))))

/-! ## Token and counter agreement (C24) -/

theorem tokenInv_construct (portals : List PortalConfig) :
    TokenInv (PortalSystem.construct portals) := by
  intro id
  constructor
  · intro c hc
    simp only [PortalSystem.construct] at hc ⊢
    split at hc
    · cases hc
      simp
    · cases hc
  · intro _
    simp [PortalSystem.construct]

theorem tokenInv_updateCooldowns (ps : PortalSystem) (h : TokenInv ps) :
    TokenInv ps.updateCooldowns := by
  cases hq : ps.cooldown_queue_ with
  | nil =>
    have : ps.updateCooldowns = ps := by simp [PortalSystem.updateCooldowns, hq]
    rw [this]
    exact h
  | cons t rest =>
    have hcount : ps.cooldown_queue_.count t = rest.count t + 1 := by
      rw [hq]
      simp
    cases hc : ps.cooldowns_ t with
    | none =>
      have := (h t).2 hc
      omega
    | some c =>
      have hceq := (h t).1 c hc
      have hpos : 0 < c := by omega
      obtain ⟨hq', hc'⟩ := updateCooldowns_own ps t rest c hq hc hpos
      intro id
      by_cases hid : id = t
      · subst hid
        rw [hq', hc']
        constructor
        · intro c1 hc1
          cases hc1
          omega
        · intro hnone
          cases hnone
      · obtain ⟨hq2, hc2⟩ := updateCooldowns_other ps t id rest hq hid
        have hcnt : ps.cooldown_queue_.count id = rest.count id := by
          rw [hq]
          simp [List.count_cons, hid, Ne.symm hid]
        rw [hq', hc2, ← hcnt]
        exact h id

theorem tokenInv_handlePortalMove (ps : PortalSystem) (start end_ : Position)
    (board : ChessBoard) (hK : ∀ p ∈ ps.portals_, 0 ≤ p.properties.cooldown)
    (hready : (board.getSquare start).is_empty = true ∨
      ps.isPortalInCooldown start end_ = false) (h : TokenInv ps) :
    TokenInv (ps.handlePortalMove start end_ board).1 := by
  cases hf : ps.portals_.find? (fun q => q.matchesMove start end_) with
  | none =>
    have : ps.handlePortalMove start end_ board = (ps, board) := by
      simp [PortalSystem.handlePortalMove, hf]
    rw [this]
    exact h
  | some portal =>
    cases hocc : (board.getSquare start).is_empty with
    | true =>
      have : ps.handlePortalMove start end_ board = (ps, board) := by
        simp [PortalSystem.handlePortalMove, hf, hocc]
      rw [this]
      exact h
    | false =>
      have hready : ps.isPortalInCooldown start end_ = false := by
        rcases hready with hr | hr
        · rw [hocc] at hr
          exact Bool.noConfusion hr
        · exact hr
      obtain ⟨hc, hq, -⟩ := handlePortalMove_arms ps board start end_ portal hf hocc
      have hKp := hK portal (List.mem_of_find?_eq_some hf)
      have hzero : ps.cooldown_queue_.count portal.id = 0 := by
        cases hold : ps.cooldowns_ portal.id with
        | none => exact (h portal.id).2 hold
        | some c =>
          have hceq := (h portal.id).1 c hold
          have hnot : ¬(c > 0) := by
            intro hpos
            have : ps.isPortalInCooldown start end_ = true := by
              simp [PortalSystem.isPortalInCooldown, hf, hold, hpos]
            rw [this] at hready
            exact Bool.noConfusion hready
          omega
      intro id
      rw [hq]
      by_cases hid : id = portal.id
      · subst hid
        rw [hc]
        constructor
        · intro c1 hc1
          cases hc1
          simp only [List.count_append, hzero, List.count_replicate_self]
          omega
        · intro hnone
          cases hnone
      · have hother : (ps.handlePortalMove start end_ board).1.cooldowns_ id =
            ps.cooldowns_ id := by
          simp [PortalSystem.handlePortalMove, hf, hocc, hid]
        have hcnt : (ps.cooldown_queue_ ++
            List.replicate portal.properties.cooldown.toNat portal.id).count id =
            ps.cooldown_queue_.count id := by
          simp [List.count_append, List.count_replicate, Ne.symm hid]
        rw [hother, hcnt]
        exact h id

theorem applyOp_portals (ps : PortalSystem) (op : PortalOp) :
    (ps.applyOp op).portals_ = ps.portals_ := by
  cases op with
  | use start end_ board => exact (handlePortalMove_cooldowns ps start end_ board).1
  | tick => exact (updateCooldowns_cooldowns ps "").1

theorem applyOp_keeps_counters_defined (ps : PortalSystem) (op : PortalOp) (id : String)
    (h : (ps.cooldowns_ id).isSome = true) : ((ps.applyOp op).cooldowns_ id).isSome = true := by
  cases op with
  | use start end_ board =>
    simp only [PortalSystem.applyOp]
    rcases (handlePortalMove_cooldowns ps start end_ board).2 with he | ⟨portal, _, hnew⟩
    · rw [he]
      exact h
    · rw [hnew id]
      split
      · rfl
      · exact h
  | tick =>
    simp only [PortalSystem.applyOp]
    rcases (updateCooldowns_cooldowns ps id).2 with he | ⟨c, _, _, hnew⟩
    · rw [he]
      exact h
    · rw [hnew]
      rfl

theorem tokenInv_runOps (ops : List PortalOp) :
    ∀ ps : PortalSystem, (∀ p ∈ ps.portals_, 0 ≤ p.properties.cooldown) → TokenInv ps →
      ps.usesReadyPortals ops = true →
      TokenInv (ps.runOps ops) ∧ (ps.runOps ops).portals_ = ps.portals_ ∧
        ∀ id : String, (ps.cooldowns_ id).isSome = true →
          ((ps.runOps ops).cooldowns_ id).isSome = true := by
  induction ops with
  | nil =>
    intro ps _ h _
    exact ⟨h, rfl, fun _ hid => hid⟩
  | cons op ops ih =>
    intro ps hK h hready
    have hports := applyOp_portals ps op
    have hK' : ∀ p ∈ (ps.applyOp op).portals_, 0 ≤ p.properties.cooldown := by
      rw [hports]
      exact hK
    have hstep : TokenInv (ps.applyOp op) ∧ (ps.applyOp op).usesReadyPortals ops = true := by
      cases op with
      | use start end_ board =>
        simp only [PortalSystem.usesReadyPortals, Bool.and_eq_true, Bool.or_eq_true,
          Bool.not_eq_true'] at hready
        exact ⟨tokenInv_handlePortalMove ps start end_ board hK hready.1 h, hready.2⟩
      | tick =>
        simp only [PortalSystem.usesReadyPortals] at hready
        exact ⟨tokenInv_updateCooldowns ps h, hready⟩
    obtain ⟨h1, h2, h3⟩ := ih (ps.applyOp op) hK' hstep.1 hstep.2
    simp only [PortalSystem.runOps, List.foldl_cons]
    exact ⟨h1, h2.trans hports,
      fun id hid => h3 id (applyOp_keeps_counters_defined ps op id hid)⟩

theorem updateCooldowns_queue (ps : PortalSystem) :
    ps.updateCooldowns.cooldown_queue_ = ps.cooldown_queue_.tail := by
  cases hq : ps.cooldown_queue_ with
  | nil => simp [PortalSystem.updateCooldowns, hq]
  | cons t rest =>
    cases hc : ps.cooldowns_ t with
    | none => simp [PortalSystem.updateCooldowns, hq, hc]
    | some c =>
      by_cases hpos : c > 0
      · simp [PortalSystem.updateCooldowns, hq, hc, hpos]
      · simp [PortalSystem.updateCooldowns, hq, hc, hpos]

/-- As many ticks as the queue is long empty the queue and keep the agreement. -/
theorem drain_queue (n : Nat) :
    ∀ ps : PortalSystem, TokenInv ps → ps.cooldown_queue_.length = n →
      (updateCooldownsTimes n ps).cooldown_queue_ = [] ∧
        TokenInv (updateCooldownsTimes n ps) ∧
        ∀ id : String, (ps.cooldowns_ id).isSome = true →
          ((updateCooldownsTimes n ps).cooldowns_ id).isSome = true := by
  induction n with
  | zero =>
    intro ps h hlen
    exact ⟨List.eq_nil_of_length_eq_zero hlen, h, fun _ hid => hid⟩
  | succ n ih =>
    intro ps h hlen
    have hlen' : ps.updateCooldowns.cooldown_queue_.length = n := by
      rw [updateCooldowns_queue, List.length_tail, hlen]
      rfl
    obtain ⟨h1, h2, h3⟩ := ih ps.updateCooldowns (tokenInv_updateCooldowns ps h) hlen'
    simp only [updateCooldownsTimes]
    exact ⟨h1, h2, fun id hid =>
      h3 id (applyOp_keeps_counters_defined ps PortalOp.tick id hid)⟩

/-- C24: starting from the constructed portal system (non-negative cooldown lengths), after
every finite sequence of `updateCooldowns` calls and of `handlePortalMove` calls that use a
portal only while it is not in cooldown, the counter of every configured portal equals the number of queued
tokens carrying its id; after as many further `updateCooldowns` calls as the queue is long the
queue is empty and every configured portal's counter is 0. -/
theorem tokens_equal_counters (portals : List PortalConfig)
    (hK : ∀ p ∈ portals, 0 ≤ p.properties.cooldown) :
    ∀ ops : List PortalOp, (PortalSystem.construct portals).usesReadyPortals ops = true →
      (∀ p ∈ portals, ((PortalSystem.construct portals).runOps ops).cooldowns_ p.id =
        some ((((PortalSystem.construct portals).runOps ops).cooldown_queue_.count p.id : Nat)
          : Int)) ∧
      (updateCooldownsTimes ((PortalSystem.construct portals).runOps ops).cooldown_queue_.length
        ((PortalSystem.construct portals).runOps ops)).cooldown_queue_ = [] ∧
      (∀ p ∈ portals,
        (updateCooldownsTimes
          ((PortalSystem.construct portals).runOps ops).cooldown_queue_.length
          ((PortalSystem.construct portals).runOps ops)).cooldowns_ p.id = some 0) := by
  intro ops hready
  have hinit : ∀ p ∈ portals, ((PortalSystem.construct portals).cooldowns_ p.id).isSome = true := by
    intro p hp
    have hex : ∃ x ∈ portals, x.id = p.id := ⟨p, hp, rfl⟩
    simp [PortalSystem.construct, hex]
  obtain ⟨hinv, -, hsome⟩ := tokenInv_runOps ops (PortalSystem.construct portals) hK
    (tokenInv_construct portals) hready
  obtain ⟨hempty, hinv2, hsome2⟩ := drain_queue _ _ hinv rfl
  refine ⟨?_, hempty, ?_⟩
  · intro p hp
    have hs := hsome p.id (hinit p hp)
    cases hc : ((PortalSystem.construct portals).runOps ops).cooldowns_ p.id with
    | none =>
      rw [hc] at hs
      exact Bool.noConfusion hs
    | some c => rw [(hinv p.id).1 c hc]
  · intro p hp
    have hs := hsome2 p.id (hsome p.id (hinit p hp))
    cases hc : (updateCooldownsTimes
        ((PortalSystem.construct portals).runOps ops).cooldown_queue_.length
        ((PortalSystem.construct portals).runOps ops)).cooldowns_ p.id with
    | none =>
      rw [hc] at hs
      exact Bool.noConfusion hs
    | some c =>
      have := (hinv2 p.id).1 c hc
      rw [hempty] at this
      rw [this]
      rfl

/-- C24 witness: the two portals of `twoPortals`; "A" is used, then "B", then one tick. -/
theorem tokens_equal_counters_witness :
    ((PortalSystem.construct twoPortalConfigs).runOps
        [PortalOp.use ⟨0, 0⟩ ⟨1, 1⟩ twoPawnsBoard, PortalOp.use ⟨2, 2⟩ ⟨3, 3⟩ twoPawnsBoard,
          PortalOp.tick]).cooldowns_ "A" =
      some ((((PortalSystem.construct twoPortalConfigs).runOps
        [PortalOp.use ⟨0, 0⟩ ⟨1, 1⟩ twoPawnsBoard, PortalOp.use ⟨2, 2⟩ ⟨3, 3⟩ twoPawnsBoard,
          PortalOp.tick]).cooldown_queue_.count "A" : Nat) : Int) :=
  (tokens_equal_counters twoPortalConfigs (by decide)
    [PortalOp.use ⟨0, 0⟩ ⟨1, 1⟩ twoPawnsBoard, PortalOp.use ⟨2, 2⟩ ⟨3, 3⟩ twoPawnsBoard,
      PortalOp.tick] (by decide!)).1
    ⟨"A", ⟨⟨0, 0⟩, ⟨1, 1⟩⟩, ⟨["white", "black"], 2⟩⟩ (by decide)

/-! ## Termination of the breadth-first search (C25) -/

theorem length_flatMap_range_map (n : Nat) (f : Nat → Nat → Position) (l : List Nat) :
    (l.flatMap fun y => (List.range n).map (f y)).length = l.length * n := by
  induction l with
  | nil => simp
  | cons a l ih =>
    simp only [List.flatMap_cons, List.length_append, List.length_map, List.length_range, ih,
      List.length_cons]
    rw [Nat.succ_mul, Nat.add_comm]

theorem length_scanPositions (board : ChessBoard) :
    (scanPositions board).length = board.getBoardSize.toNat * board.getBoardSize.toNat := by
  unfold scanPositions
  rw [length_flatMap_range_map board.getBoardSize.toNat
    (fun y x => (⟨(x : Int), (y : Int)⟩ : Position)), List.length_range]

/-- A duplicate-free list of squares of the board has at most `size * size` members. -/
theorem visited_length_le (board : ChessBoard) (visited : List Position)
    (hnd : visited.Nodup) (hin : ∀ p ∈ visited, board.isInBounds p = true) :
    visited.length ≤ board.getBoardSize.toNat * board.getBoardSize.toNat := by
  rw [← length_scanPositions]
  apply List.Subperm.length_le
  apply List.subperm_of_subset hnd
  intro p hp
  exact (mem_scanPositions board p).2 (hin p hp)

/-- The edge loop keeps the visited set duplicate-free and on the board, and enqueues exactly
the squares it marks. -/
theorem bfsPushEdges_invariant (board : ChessBoard) (end_ : Position) (edges : List Position) :
    ∀ (queue visited : List Position), visited.Nodup →
      (∀ p ∈ visited, board.isInBounds p = true) →
      (bfsPushEdges board end_ edges (queue, visited)).2.Nodup ∧
      (∀ p ∈ (bfsPushEdges board end_ edges (queue, visited)).2, board.isInBounds p = true) ∧
      (bfsPushEdges board end_ edges (queue, visited)).1.length + visited.length =
        queue.length + (bfsPushEdges board end_ edges (queue, visited)).2.length := by
  induction edges with
  | nil =>
    intro queue visited hnd hin
    exact ⟨hnd, hin, rfl⟩
  | cons next edges ih =>
    intro queue visited hnd hin
    unfold bfsPushEdges
    by_cases hb : board.isInBounds next = true
    · by_cases hv : next ∈ visited
      · simp only [hb, Bool.not_true, Bool.false_eq_true, if_false, List.contains_eq_any_beq,
          List.any_eq_true, beq_iff_eq]
        have hex : ∃ x, x ∈ visited ∧ next = x := ⟨next, hv, rfl⟩
        simp only [hex, if_true]
        exact ih queue visited hnd hin
      · have hex : ¬∃ x, x ∈ visited ∧ next = x := by
          rintro ⟨x, hx, rfl⟩
          exact hv hx
        simp only [hb, Bool.not_true, Bool.false_eq_true, if_false, List.contains_eq_any_beq,
          List.any_eq_true, beq_iff_eq, hex]
        split
        · exact ih queue visited hnd hin
        · have hnd' : (next :: visited).Nodup := List.nodup_cons.2 ⟨hv, hnd⟩
          have hin' : ∀ p ∈ next :: visited, board.isInBounds p = true := by
            intro p hp
            rcases List.mem_cons.1 hp with rfl | hp
            · exact hb
            · exact hin p hp
          obtain ⟨h1, h2, h3⟩ := ih (queue ++ [next]) (next :: visited) hnd' hin'
          refine ⟨h1, h2, ?_⟩
          simp only [List.length_append, List.length_cons, List.length_nil] at h3 ⊢
          omega
    · simp only [hb, Bool.not_false, if_true]
      exact ih queue visited hnd hin

/-- The portal block keeps the visited set duplicate-free and on the board, and enqueues
exactly the square it marks. -/
theorem bfsPushPortal_invariant (piece_lower : String) (current end_ : Position)
    (board : ChessBoard) (ps : PortalSystem) (queue visited : List Position)
    (hnd : visited.Nodup) (hin : ∀ p ∈ visited, board.isInBounds p = true) :
    (bfsPushPortal piece_lower current end_ board ps (queue, visited)).2.Nodup ∧
    (∀ p ∈ (bfsPushPortal piece_lower current end_ board ps (queue, visited)).2,
      board.isInBounds p = true) ∧
    (bfsPushPortal piece_lower current end_ board ps (queue, visited)).1.length +
        visited.length =
      queue.length + (bfsPushPortal piece_lower current end_ board ps (queue, visited)).2.length
    := by
  unfold bfsPushPortal
  split
  · split
    · rename_i hb
      cases hc : visited.contains end_ with
      | true =>
        simp only [hc, Bool.not_true, Bool.false_eq_true, if_false]
        exact ⟨hnd, hin, trivial⟩
      | false =>
        have hv : end_ ∉ visited := by
          intro hmem
          have : visited.contains end_ = true := by simpa using hmem
          rw [this] at hc
          exact Bool.noConfusion hc
        simp only [hc, Bool.not_false, if_true]
        refine ⟨List.nodup_cons.2 ⟨hv, hnd⟩, ?_, ?_⟩
        · intro p hp
          rcases List.mem_cons.1 hp with rfl | hp
          · exact hb
          · exact hin p hp
        · simp only [List.length_append, List.length_cons, List.length_nil]
          omega
    · exact ⟨hnd, hin, rfl⟩
  · exact ⟨hnd, hin, rfl⟩

/-- The search loop returns whenever its bound exceeds the queue length plus the number of
squares of the board not yet marked. -/
theorem bfsLoop_returns (piece_lower : String) (end_ : Position) (w : Bool)
    (board : ChessBoard) (ps : PortalSystem) (fuel : Nat) :
    ∀ (queue visited : List Position), visited.Nodup →
      (∀ p ∈ visited, board.isInBounds p = true) →
      queue.length +
          (board.getBoardSize.toNat * board.getBoardSize.toNat - visited.length) < fuel →
      ∃ b : Bool, bfsLoop piece_lower end_ w board ps fuel queue visited = some b := by
  induction fuel with
  | zero =>
    intro queue visited _ _ h
    exact absurd h (Nat.not_lt_zero _)
  | succ fuel ih =>
    intro queue visited hnd hin hlt
    cases queue with
    | nil => exact ⟨false, by simp [bfsLoop]⟩
    | cons current rest =>
      by_cases hfound : current.x = end_.x ∧ current.y = end_.y
      · exact ⟨true, by simp [bfsLoop, hfound]⟩
      · obtain ⟨p1, p2, p3⟩ :=
          bfsPushPortal_invariant piece_lower current end_ board ps rest visited hnd hin
        obtain ⟨e1, e2, e3⟩ := bfsPushEdges_invariant board end_
          (getMoveEdges piece_lower current w board)
          (bfsPushPortal piece_lower current end_ board ps (rest, visited)).1
          (bfsPushPortal piece_lower current end_ board ps (rest, visited)).2 p1 p2
        have hv := visited_length_le board visited hnd hin
        have hv' := visited_length_le board _ e1 e2
        have hrest : rest.length + 1 +
            (board.getBoardSize.toNat * board.getBoardSize.toNat - visited.length) <
            fuel + 1 := by
          simpa using hlt
        have hmeasure :
            (bfsPushEdges board end_ (getMoveEdges piece_lower current w board)
              ((bfsPushPortal piece_lower current end_ board ps (rest, visited)).1,
                (bfsPushPortal piece_lower current end_ board ps (rest, visited)).2)).1.length +
              (board.getBoardSize.toNat * board.getBoardSize.toNat -
                (bfsPushEdges board end_ (getMoveEdges piece_lower current w board)
                  ((bfsPushPortal piece_lower current end_ board ps (rest, visited)).1,
                    (bfsPushPortal piece_lower current end_ board ps
                      (rest, visited)).2)).2.length) < fuel := by
          clear ih hlt hfound
          generalize board.getBoardSize.toNat * board.getBoardSize.toNat = total at *
          omega
        obtain ⟨b, hb⟩ := ih _ _ e1 e2 hmeasure
        refine ⟨b, ?_⟩
        rw [bfsLoop]
        simp only [hfound, if_false]
        exact hb

/-- C25: `bfsValidateMove` returns for every piece kind, board, portal system, start and end.
A square is marked visited when it is enqueued and only squares of the board are enqueued, so
the visited set stays duplicate-free and the loop, given room for `N * N` dequeued positions
and the final look at the empty queue, always reaches a `return`. -/
theorem bfsValidateMove_terminates (piece_lower : String) (start end_ : Position) (w : Bool)
    (board : ChessBoard) (ps : PortalSystem) :
    ∃ b : Bool, bfsValidateMove piece_lower start end_ w board ps = some b := by
  unfold bfsValidateMove
  by_cases hs : board.isInBounds start = true
  · by_cases he : board.isInBounds end_ = true
    · by_cases hfriend : (!(board.getSquare end_).is_empty &&
          ((board.getSquare end_).is_white == w)) = true
      · exact ⟨false, by simp [hs, he, hfriend]⟩
      · have hnd : [start].Nodup := List.nodup_singleton start
        have hin : ∀ p ∈ [start], board.isInBounds p = true := by
          intro p hp
          rw [List.mem_singleton.1 hp]
          exact hs
        have hlen := visited_length_le board [start] hnd hin
        obtain ⟨b, hb⟩ := bfsLoop_returns piece_lower end_ w board ps
          (board.getBoardSize.toNat * board.getBoardSize.toNat + 1) [start] [start] hnd hin (by
            simp only [List.length_singleton] at hlen ⊢
            omega)
        refine ⟨b, ?_⟩
        simp only [hs, he, hfriend, Bool.not_true, Bool.or_self, Bool.false_eq_true, if_false]
        exact hb
    · exact ⟨false, by simp [hs, he]⟩
  · exact ⟨false, by simp [hs]⟩

/-! ## Squares read by the validator (C23) -/

theorem castRayReads_inBounds (board : ChessBoard) (pos : Position) (dx dy : Int) :
    ∀ (n : Nat) (i : Int), ∀ p ∈ castRayReads board pos dx dy n i,
      board.isInBounds p = true := by
  intro n
  induction n with
  | zero => intro i p hp; simp [castRayReads] at hp
  | succ n ih =>
    intro i p hp
    rw [castRayReads] at hp
    by_cases hb : board.isInBounds ⟨pos.x + i * dx, pos.y + i * dy⟩ = true
    · simp only [hb, Bool.not_true, Bool.false_eq_true, if_false, List.mem_cons] at hp
      rcases hp with rfl | hp
      · exact hb
      · split at hp
        · simp at hp
        · exact ih (i + 1) p hp
    · simp [hb] at hp

theorem slideReads_inBounds (board : ChessBoard) (pos : Position) (dirs : List (Int × Int)) :
    ∀ p ∈ slideReads board pos dirs, board.isInBounds p = true := by
  intro p hp
  simp only [slideReads, List.mem_flatMap] at hp
  obtain ⟨d, _, hd⟩ := hp
  exact castRayReads_inBounds board pos d.1 d.2 _ _ p hd

theorem stepReads_inBounds (board : ChessBoard) (pos : Position) (moves : List (Int × Int)) :
    ∀ p ∈ stepReads board pos moves, board.isInBounds p = true := by
  intro p hp
  simp only [stepReads, List.mem_flatMap] at hp
  obtain ⟨m, _, hm⟩ := hp
  split at hm
  · rename_i hb
    rw [List.mem_singleton.1 hm]
    exact hb
  · simp at hm

theorem pawnReads_inBounds (board : ChessBoard) (pos : Position) (w : Bool) :
    ∀ p ∈ pawnReads board pos w, board.isInBounds p = true := by
  intro p hp
  unfold pawnReads at hp
  generalize (if w = true then (1 : Int) else -1) = f at hp
  simp only [List.mem_append, List.mem_flatMap, List.mem_cons, List.mem_singleton,
    List.not_mem_nil, or_false, exists_eq_or_imp, exists_eq_left] at hp
  rcases hp with h | h | h
  · split at h
    · rename_i hb1
      rcases List.mem_cons.1 h with rfl | h
      · exact hb1
      · split at h
        · split at h
          · rename_i hb2
            rcases List.mem_cons.1 h with rfl | h
            · exact hb2
            · split at h
              · rw [List.mem_singleton.1 h]
                exact hb1
              · simp at h
          · simp at h
        · simp at h
    · simp at h
  · split at h
    · rename_i hb
      rw [List.mem_singleton.1 h]
      exact hb
    · simp at h
  · split at h
    · rename_i hb
      rw [List.mem_singleton.1 h]
      exact hb
    · simp at h

theorem getMoveEdgesReads_inBounds (piece_lower : String) (pos : Position) (w : Bool)
    (board : ChessBoard) :
    ∀ p ∈ getMoveEdgesReads piece_lower pos w board, board.isInBounds p = true := by
  intro p hp
  unfold getMoveEdgesReads at hp
  simp only at hp
  split at hp
  · exact pawnReads_inBounds board pos w p hp
  · split at hp
    · exact stepReads_inBounds board pos _ p hp
    · split at hp
      · exact slideReads_inBounds board pos _ p hp
      · split at hp
        · exact slideReads_inBounds board pos _ p hp
        · split at hp
          · exact slideReads_inBounds board pos _ p hp
          · split at hp
            · exact stepReads_inBounds board pos _ p hp
            · simp at hp

theorem isEnPassantMoveReads_inBounds (start end_ : Position) (w : Bool) (board : ChessBoard)
    (hs : board.isInBounds start = true) (he : board.isInBounds end_ = true) :
    ∀ p ∈ isEnPassantMoveReads start end_ w board, board.isInBounds p = true := by
  intro p hp
  have hcap : board.isInBounds ⟨end_.x, start.y⟩ = true := by
    rw [isInBounds_iff] at hs he ⊢
    exact ⟨he.1, he.2.1, hs.2.2.1, hs.2.2.2⟩
  unfold isEnPassantMoveReads at hp
  by_cases c1 : ((w && decide (start.y ≠ 4)) || (!w && decide (start.y ≠ 3))) = true
  · rw [if_pos c1] at hp
    simp at hp
  · rw [if_neg c1] at hp
    by_cases c2 : (end_.x - start.x).natAbs ≠ 1 ∨ end_.y ≠ (if w = true then 5 else 2)
    · rw [if_pos c2] at hp
      simp at hp
    · rw [if_neg c2] at hp
      rcases List.mem_cons.1 hp with rfl | hp
      · exact he
      · by_cases c3 : (!(board.getSquare end_).is_empty) = true
        · rw [if_pos c3] at hp
          simp at hp
        · rw [if_neg c3] at hp
          rw [List.mem_singleton.1 hp]
          exact hcap

theorem castlingPathReads_kingside (board : ChessBoard) (y : Int) :
    ∀ p ∈ castlingPathReads board y 7 1 8 (4 + 1), p = ⟨5, y⟩ ∨ p = ⟨6, y⟩ := by
  intro p hp
  simp [castlingPathReads] at hp
  rcases hp with h | ⟨-, h⟩
  · exact Or.inl h
  · exact Or.inr h

theorem castlingPathReads_queenside (board : ChessBoard) (y : Int) :
    ∀ p ∈ castlingPathReads board y 0 (-1) 8 (4 + -1),
      p = ⟨3, y⟩ ∨ p = ⟨2, y⟩ ∨ p = ⟨1, y⟩ := by
  intro p hp
  simp [castlingPathReads] at hp
  rcases hp with h | ⟨-, h | ⟨-, h⟩⟩
  · exact Or.inl h
  · exact Or.inr (Or.inl h)
  · exact Or.inr (Or.inr h)

/-- On a board whose size is not 7 the squares read by `validateCastling` for a move of two
files along the rank between squares of the board are on the board. -/
theorem validateCastlingReads_inBounds (start end_ : Position) (w : Bool) (board : ChessBoard)
    (hs : board.isInBounds start = true) (he : board.isInBounds end_ = true)
    (hdx : (end_.x - start.x).natAbs = 2) (h7 : board.size ≠ 7) :
    ∀ p ∈ validateCastlingReads start end_ w board, board.isInBounds p = true := by
  intro p hp
  obtain ⟨sx, sy⟩ := start
  simp only at hdx
  rw [isInBounds_iff] at hs he ⊢
  simp only at hs
  unfold validateCastlingReads at hp
  by_cases hhome : sx ≠ 4 ∨ sy ≠ (if w = true then 0 else 7)
  · rw [if_pos hhome] at hp
    simp at hp
  · rw [if_neg hhome] at hp
    have h4 : sx = 4 := by
      by_contra h
      exact hhome (Or.inl h)
    subst h4
    have hside : end_.x = 6 ∨ end_.x = 2 := by omega
    rcases hside with hx | hx
    · simp only [hx, gt_iff_lt, show (4 : Int) < 6 by decide, decide_True, if_true,
        List.mem_cons] at hp
      rcases hp with rfl | hp
      · simp only
        omega
      · split at hp
        · simp at hp
        · rcases castlingPathReads_kingside board sy p hp with rfl | rfl
          · simp only
            omega
          · simp only
            omega
    · simp only [hx, gt_iff_lt, show ¬((4 : Int) < 2) by decide, decide_False,
        Bool.false_eq_true, if_false, List.mem_cons] at hp
      rcases hp with rfl | hp
      · simp only
        omega
      · split at hp
        · simp at hp
        · rcases castlingPathReads_queenside board sy p hp with rfl | rfl | rfl
          · simp only
            omega
          · simp only
            omega
          · simp only
            omega

/-- Every square read by `isValidMove` is on the board, unless the board has size 7: all
lookups other than the corner lookup of `validateCastling` follow a bounds test. -/
theorem isValidMoveReads_inBounds (piece : String) (start end_ : Position) (w : Bool)
    (board : ChessBoard) (ps : PortalSystem) (h7 : board.size ≠ 7) :
    ∀ p ∈ isValidMoveReads piece start end_ w board ps, board.isInBounds p = true := by
  intro p hp
  unfold isValidMoveReads at hp
  by_cases hs : board.isInBounds start = true
  · simp only [hs, Bool.not_true, Bool.false_eq_true, if_false, List.mem_cons] at hp
    rcases hp with rfl | hp
    · exact hs
    · split at hp
      · simp at hp
      · by_cases he : board.isInBounds end_ = true
        · simp only [he, Bool.not_true, Bool.false_eq_true, if_false, List.mem_cons] at hp
          rcases hp with rfl | hp
          · exact he
          · split at hp
            · simp at hp
            · split at hp
              · rename_i hshape
                exact validateCastlingReads_inBounds start end_ w board hs he hshape.2.1 h7 p hp
              · split at hp
                · rcases List.mem_append.1 hp with hp | hp
                  · exact isEnPassantMoveReads_inBounds start end_ w board hs he p hp
                  · split at hp
                    · simp at hp
                    · split at hp
                      · exact getMoveEdgesReads_inBounds _ start w board p hp
                      · split at hp
                        · rw [List.mem_singleton.1 hp]
                          exact hs
                        · exact getMoveEdgesReads_inBounds _ start w board p hp
                · split at hp
                  · rw [List.mem_singleton.1 hp]
                    exact hs
                  · exact getMoveEdgesReads_inBounds _ start w board p hp
        · simp [he] at hp
  · simp [hs] at hp

/-- C23 (evaluation of the code): on a 7x7 board with the white king on (4,0), the move to
(6,0) passes the start and end checks and is handed to `validateCastling`, which reads the
rook's corner (7,0); that square is not on the board. -/
theorem castling_reads_off_board_square :
    sevenBoard.getBoardSize = 7 ∧
    sevenBoard.isInBounds ⟨4, 0⟩ = true ∧ sevenBoard.isInBounds ⟨6, 0⟩ = true ∧
    isValidMoveReads "king" ⟨4, 0⟩ ⟨6, 0⟩ true sevenBoard noPortals =
      [⟨4, 0⟩, ⟨6, 0⟩, ⟨7, 0⟩] ∧
    (⟨7, 0⟩ : Position) ∈ validateCastlingReads ⟨4, 0⟩ ⟨6, 0⟩ true sevenBoard ∧
    sevenBoard.isInBounds ⟨7, 0⟩ = false := by
  refine ⟨by decide!, by decide!, by decide!, by decide!, by decide!, by decide!⟩

end ChessPortals
